import Mathlib

/-!
Verification development for the streaming spectral-transport engine
(`RealtimeAudioTransport`, `RealtimeReassignmentTransport` and the
`audio_transport` spectral library).

The C++ sources are shallowly embedded.  IEEE doubles are modelled as exact
elements of a linear ordered field (`ℚ` for executable instantiations, `ℝ`
for the full engine pipelines); every `isfinite` guard of the source is
therefore vacuously true and is noted where it occurs.  `std::vector` becomes
`List`, reads `getD`, writes `List.set`.  The FFTW calls `fftw_execute` on
r2c/c2r plans are external library calls; they are modelled by the textbook
real-input DFT and its Hermitian inverse (`r2c`, `c2r` below).
-/

namespace AudioTransport

set_option maxHeartbeats 2000000

section SpectralCDF

variable {α : Type} [LinearOrderedField α] [FloorRing α]

/-- The constant `MIN_MASS_THRESHOLD = 1e-10` / `eps = 1e-10` of the C++
sources (`audio_transport.cpp`, `RealtimeAudioTransport.cpp`). -/
def tEps : α := 1 / 10000000000

/-- The binary-search loop of `RealtimeAudioTransport::computeTransportMap`:
`left`/`right`/`result` cursors, searching for the smallest `j` with
`cdf_Y[j] >= c` where `c = cdf_X[i] - eps`; `result` starts at `N-1` and is
returned unchanged when no index qualifies.  The `fuel` argument is only a
structural-recursion device; the interval `[lo, hi]` loses at least one
element per iteration, so any `fuel ≥ hi + 1 - lo` reproduces the C++
`while (left <= right)` loop exactly. -/
def lowerBoundGo (f : ℕ → α) (c : α) : ℕ → ℤ → ℤ → ℤ → ℤ
  | 0, _, _, res => res
  | fuel + 1, lo, hi, res =>
    if lo ≤ hi then
      let mid := (lo + hi) / 2
      if c ≤ f mid.toNat then lowerBoundGo f c fuel lo (mid - 1) mid
      else lowerBoundGo f c fuel (mid + 1) hi res
    else res

/-- Running cumulative distribution of `computeTransportMap`:
`cdf[i] = Σ_{j ≤ i} mag[j]/s`. -/
def cdfAt (mag : List α) (s : α) (i : ℕ) : α :=
  ∑ j in Finset.range (i + 1), mag.getD j 0 / s

/-- Total magnitude mass `Σ_{i<N} mag[i]` of `computeTransportMap`. -/
def magSum (N : ℕ) (mag : List α) : α :=
  ∑ j in Finset.range N, mag.getD j 0

/-- `RealtimeAudioTransport::computeTransportMap`: clamp both totals to
`eps`, build both CDFs, and for each `i` binary-search the smallest `j` with
`cdf_Y[j] ≥ cdf_X[i] - eps` (falling back to `N-1`). -/
def computeTransportMap (N : ℕ) (magX magY : List α) : List ℤ :=
  let sX := max (magSum N magX) tEps
  let sY := max (magSum N magY) tEps
  (List.range N).map fun i =>
    lowerBoundGo (fun j => cdfAt magY sY j) (cdfAt magX sX i - tEps)
      N 0 ((N : ℤ) - 1) ((N : ℤ) - 1)

/-- Accumulator of the deposit loop of
`RealtimeAudioTransport::interpolateSpectrum`: output magnitudes, summed
deposit weights (initialised to `eps` per bin) and the phase numerators. -/
structure DepositState (α : Type) where
  magOut : List α
  wSum : List α
  pNum : List α

/-- One iteration of the deposit loop of `interpolateSpectrum` (source bin
`i`): interpolated position `(1-k)·i + k·T[i]`, interpolated magnitude
`(1-k)·|X[i]| + k·|Y[T[i]]|`, linear split between `floor` and `ceil` of the
position, both clamped into `[0, N-1]`. -/
def depositStep (N : ℕ) (magX phX magY : List α) (T : List ℤ) (k : α)
    (st : DepositState α) (i : ℕ) : DepositState α :=
  let t : ℤ := T.getD i 0
  let pos : α := (1 - k) * (i : α) + k * (t : α)
  let im : α := (1 - k) * magX.getD i 0 + k * magY.getD t.toNat 0
  let lo0 : ℤ := ⌊pos⌋
  let hi0 : ℤ := ⌈pos⌉
  let frac : α := pos - (lo0 : α)
  let lo : ℤ := max 0 (min lo0 ((N : ℤ) - 1))
  let hi : ℤ := max 0 (min hi0 ((N : ℤ) - 1))
  let st1 :=
    if lo < (N : ℤ) then
      let w := (1 - frac) * im
      { magOut := st.magOut.set lo.toNat (st.magOut.getD lo.toNat 0 + w)
        wSum := st.wSum.set lo.toNat (st.wSum.getD lo.toNat 0 + w)
        pNum := st.pNum.set lo.toNat (st.pNum.getD lo.toNat 0 + w * phX.getD i 0) }
    else st
  if hi < (N : ℤ) ∧ hi ≠ lo then
    let w := frac * im
    { magOut := st1.magOut.set hi.toNat (st1.magOut.getD hi.toNat 0 + w)
      wSum := st1.wSum.set hi.toNat (st1.wSum.getD hi.toNat 0 + w)
      pNum := st1.pNum.set hi.toNat (st1.pNum.getD hi.toNat 0 + w * phX.getD i 0) }
  else st1

/-- `RealtimeAudioTransport::interpolateSpectrum`: build the transport map,
run the deposit loop over all source bins, then emit the weighted-average
phase per bin (falling back to the sidechain phase when the accumulated
weight is not above `eps`).  Returns `(mag_out, phase_out)`. -/
def interpolateSpectrum (N : ℕ) (magX phX magY phY : List α) (k : α) :
    List α × List α :=
  let T := computeTransportMap N magX magY
  let st0 : DepositState α :=
    ⟨List.replicate N 0, List.replicate N tEps, List.replicate N 0⟩
  let st := (List.range N).foldl (depositStep N magX phX magY T k) st0
  (st.magOut,
    (List.range N).map fun i =>
      if tEps < st.wSum.getD i 0 then st.pNum.getD i 0 / st.wSum.getD i 0
      else phY.getD i 0)

end SpectralCDF

section SpectralLib

variable {α V : Type} [LinearOrderedField α] [FloorRing α]

/-- `audio_transport::spectral::point`.  Modelled from the spec:
`spectral.hpp` is not under `src/`; §3 specifies one complex `value`, a
nominal frequency `freq`, and reassigned frequency/time, which is also how
`RealtimeReassignmentTransport::analyzeWindow` fills the struct.  The value
type `V` is abstract (instantiated with `ℂ` for the real pipeline). -/
structure SPoint (α V : Type) where
  value : V
  freq : α
  time : α
  freq_reassigned : α
  time_reassigned : α

/-- `audio_transport::spectral_mass`: a run of bins `[left_bin, right_bin)`
with a designated `center_bin` and a normalised `mass`. -/
structure SpectralMass (α : Type) where
  left_bin : ℕ
  center_bin : ℕ
  right_bin : ℕ
  mass : α

/-- Operations on the abstract complex value type `V`: the
`std::abs`, `std::arg`, `std::polar`, addition, zero and scalar
multiplication used by `audio_transport.cpp`, plus the scalar constant
`M_PI`.  The faithful instantiation is `α := ℝ`, `V := ℂ`; executable
witnesses use `α := V := ℚ`. -/
structure VOps (α V : Type) where
  vzero : V
  vadd : V → V → V
  vsmul : α → V → V
  vabs : V → α
  varg : V → α
  vpolar : α → α → V
  piv : α

variable (ops : VOps α V)

/-- Default `spectral::point` (value-initialised struct). -/
def dfltP : SPoint α V := ⟨ops.vzero, 0, 0, 0, 0⟩

/-- `std::round`: round half away from zero (the argument of
`audio_transport::interpolate`'s `interpolated_bin` computation). -/
def cround (x : α) : ℤ := if x < 0 then -⌊-x + 1 / 2⌋ else ⌊x + 1 / 2⌋

/-- The loop of `audio_transport::transport_matrix`.  `fuel` is a
structural-recursion device: every iteration advances `li` or `ri`, so any
`fuel ≥ (left.length - li) + (right.length - ri)` reproduces the C++
`while (true)` loop exactly. -/
def transportGo (left right : List (SpectralMass α)) :
    ℕ → ℕ → ℕ → α → α → List (ℕ × ℕ × α)
  | 0, _, _, _, _ => []
  | fuel + 1, li, ri, lm, rm =>
    if lm < rm then
      (li, ri, lm) ::
        (if left.length ≤ li + 1 then []
         else transportGo left right fuel (li + 1) ri
           ((left.getD (li + 1) ⟨0, 0, 0, 0⟩).mass) (rm - lm))
    else
      (li, ri, rm) ::
        (if right.length ≤ ri + 1 then []
         else transportGo left right fuel li (ri + 1)
           (lm - rm) ((right.getD (ri + 1) ⟨0, 0, 0, 0⟩).mass))

/-- `audio_transport::transport_matrix`: the two-pointer greedy matcher.
The C++ function reads `left[0]`/`right[0]` unconditionally (undefined
behaviour on empty lists); the model returns `[]` in that unreachable
case. -/
def transport_matrix (left right : List (SpectralMass α)) :
    List (ℕ × ℕ × α) :=
  match left, right with
  | l0 :: _, r0 :: _ =>
    transportGo left right (left.length + right.length) 0 0 l0.mass r0.mass
  | _, _ => []

/-- State of the scan loop of `audio_transport::group_spectrum`: the closed
masses (most recent first), the mass currently being built (`masses.back()`
in the C++), and the `sign`/`first` flags. -/
structure GroupState (α : Type) where
  closedRev : List (SpectralMass α)
  cur : SpectralMass α
  sign : Bool
  first : Bool

/-- One iteration (bin `i`) of the scan loop of `group_spectrum`. -/
def groupStep (spectrum : List (SPoint α V)) (massSum : α)
    (st : GroupState α) (i : ℕ) : GroupState α :=
  let p := spectrum.getD i (dfltP ops)
  let current_sign : Bool := decide (p.freq < p.freq_reassigned)
  if st.first then { st with first := false, sign := current_sign }
  else if current_sign = st.sign then st
  else if st.sign then
    let pPrev := spectrum.getD (i - 1) (dfltP ops)
    let left_dist := pPrev.freq_reassigned - pPrev.freq
    let right_dist := p.freq - p.freq_reassigned
    { st with
      cur := if left_dist < right_dist then { st.cur with center_bin := i - 1 }
             else { st.cur with center_bin := i }
      sign := current_sign }
  else
    let m := ∑ j in Finset.Ico st.cur.left_bin i,
      ops.vabs (spectrum.getD j (dfltP ops)).value
    if 0 < m then
      { closedRev := { st.cur with mass := m / massSum, right_bin := i } ::
          st.closedRev
        cur := ⟨i, i, 0, 0⟩
        sign := current_sign
        first := false }
    else
      { st with cur := { st.cur with mass := m }, sign := current_sign }

/-- `audio_transport::group_spectrum`: total magnitude, the silence guard
returning a single unit mass over `[0, N)` centred at `N/2`, otherwise the
sign-flip scan followed by closing the final mass at `N`. -/
def group_spectrum (spectrum : List (SPoint α V)) : List (SpectralMass α) :=
  let massSum := ∑ j in Finset.range spectrum.length,
    ops.vabs (spectrum.getD j (dfltP ops)).value
  if massSum < tEps then
    [⟨0, spectrum.length / 2, spectrum.length, 1⟩]
  else
    let st := (List.range spectrum.length).foldl
      (groupStep ops spectrum massSum) ⟨[], ⟨0, 0, 0, 0⟩, false, true⟩
    st.closedRev.reverse ++
      [{ st.cur with
          right_bin := spectrum.length
          mass := (∑ j in Finset.Ico st.cur.left_bin spectrum.length,
            ops.vabs (spectrum.getD j (dfltP ops)).value) / massSum }]

/-- Body of the bin loop of `audio_transport::place_mass` for source bin
`i`: compute the shifted destination `new_i`, skip it when it falls outside
`[0, output.size())`, otherwise add the rotated deposit and, when this
deposit is the loudest so far at that bin, store the next-hop phase seed,
the amplitude and the interpolated reassigned frequency. -/
def placeStep (mass : SpectralMass α) (center_bin : ℤ)
    (scale1 phase_shift interpolated_freq next_phase : α)
    (input : List (SPoint α V))
    (st : List (SPoint α V) × List α × List α) (i : ℕ) :
    List (SPoint α V) × List α × List α :=
  let new_i : ℤ := (i : ℤ) + center_bin - (mass.center_bin : ℤ)
  if new_i < 0 then st
  else if (st.1.length : ℤ) ≤ new_i then st
  else
    let phase := phase_shift + ops.varg (input.getD i (dfltP ops)).value
    let mag := scale1 * ops.vabs (input.getD i (dfltP ops)).value
    let p := st.1.getD new_i.toNat (dfltP ops)
    let out1 := st.1.set new_i.toNat
      { p with value := ops.vadd p.value (ops.vpolar mag phase) }
    if st.2.2.getD new_i.toNat 0 < mag then
      (out1.set new_i.toNat
         { (out1.getD new_i.toNat (dfltP ops)) with
            freq_reassigned := interpolated_freq },
       st.2.1.set new_i.toNat next_phase,
       st.2.2.set new_i.toNat mag)
    else (out1, st.2.1, st.2.2)

/-- `audio_transport::place_mass`.  The `isfinite` guards of the source are
vacuously true in the exact model; the `scale < 0` guard and the low-
frequency attenuation ramp are kept.  Returns the updated
`(output, phases, amplitudes)` (all passed by reference in the C++). -/
def place_mass (mass : SpectralMass α) (center_bin : ℤ)
    (scale interpolated_freq center_phase : α)
    (input output : List (SPoint α V)) (next_phase : α)
    (phases amplitudes : List α) :
    List (SPoint α V) × List α × List α :=
  if scale < 0 then (output, phases, amplitudes)
  else
    let scale1 := if |interpolated_freq| < 30 then
        scale * (|interpolated_freq| / 30 * (|interpolated_freq| / 30))
      else scale
    let phase_shift :=
      center_phase - ops.varg (input.getD mass.center_bin (dfltP ops)).value
    (List.range' mass.left_bin (mass.right_bin - mass.left_bin)).foldl
      (placeStep ops mass center_bin scale1 phase_shift interpolated_freq
        next_phase input)
      (output, phases, amplitudes)

/-- Update of the running phases on a silent-side path of
`audio_transport::interpolate`: for each bin of the non-silent side (within
the phase vector), if the bin magnitude is positive the phase becomes
`arg(value) + freq_reassigned · window_size/2`. -/
def silentPhases (side : List (SPoint α V)) (phases : List α)
    (window_size : α) : List α :=
  (List.range (min phases.length side.length)).foldl
    (fun ph i =>
      let p := side.getD i (dfltP ops)
      if 0 < ops.vabs p.value then
        ph.set i (ops.varg p.value + p.freq_reassigned * window_size / 2)
      else ph)
    phases

/-- One transport triple of the interpolation loop of
`audio_transport::interpolate`: rounded bin, rounded interpolation factor,
interpolated reassigned frequency, centre/next phases, the two clamped
scales, and the two `place_mass` calls. -/
def interpTriple (left right : List (SPoint α V))
    (left_masses right_masses : List (SpectralMass α))
    (phases : List α) (window_size interpolation : α)
    (st : List (SPoint α V) × List α × List α) (t : ℕ × ℕ × α) :
    List (SPoint α V) × List α × List α :=
  let left_mass := left_masses.getD t.1 ⟨0, 0, 0, 0⟩
  let right_mass := right_masses.getD t.2.1 ⟨0, 0, 0, 0⟩
  let interpolated_bin : ℤ := cround ((1 - interpolation) * left_mass.center_bin +
    interpolation * right_mass.center_bin)
  let interpolation_rounded : α :=
    if left_mass.center_bin ≠ right_mass.center_bin then
      ((interpolated_bin : α) - (left_mass.center_bin : α)) /
        ((right_mass.center_bin : α) - (left_mass.center_bin : α))
    else interpolation
  let interpolated_freq :=
    (1 - interpolation_rounded) *
        (left.getD left_mass.center_bin (dfltP ops)).freq_reassigned +
      interpolation_rounded *
        (right.getD right_mass.center_bin (dfltP ops)).freq_reassigned
  let center_phase := phases.getD interpolated_bin.toNat 0 +
    interpolated_freq * window_size / 2 / 2 - ops.piv * (interpolated_bin : α)
  let new_phase := center_phase + interpolated_freq * window_size / 2 / 2 +
    ops.piv * (interpolated_bin : α)
  let left_scale : α :=
    if tEps < left_mass.mass then (1 - interpolation) * t.2.2 / left_mass.mass
    else if 0 < left_mass.mass then 1 - interpolation
    else 0
  let right_scale : α :=
    if tEps < right_mass.mass then interpolation * t.2.2 / right_mass.mass
    else if 0 < right_mass.mass then interpolation
    else 0
  let r1 := place_mass ops left_mass interpolated_bin left_scale
    interpolated_freq center_phase left st.1 new_phase st.2.1 st.2.2
  place_mass ops right_mass interpolated_bin right_scale
    interpolated_freq center_phase right r1.1 new_phase r1.2.1 r1.2.2

/-- `audio_transport::interpolate`: silent-input short-circuits (both sides,
left only, right only), otherwise grouping, matching and the transport
interpolation loop.  Returns the interpolated spectrum and the updated
phase vector (passed by reference in the C++). -/
def interpolate (left right : List (SPoint α V)) (phases : List α)
    (window_size interpolation : α) :
    List (SPoint α V) × List α :=
  let left_mass_sum := ∑ i in Finset.range left.length,
    ops.vabs (left.getD i (dfltP ops)).value
  let right_mass_sum := ∑ i in Finset.range right.length,
    ops.vabs (right.getD i (dfltP ops)).value
  if left_mass_sum < tEps ∧ right_mass_sum < tEps then
    (left.map fun p => { dfltP ops with freq := p.freq }, phases)
  else if left_mass_sum < tEps then
    (right.map fun p => { p with value := ops.vsmul interpolation p.value },
     silentPhases ops right phases window_size)
  else if right_mass_sum < tEps then
    (left.map fun p => { p with value := ops.vsmul (1 - interpolation) p.value },
     silentPhases ops left phases window_size)
  else
    let left_masses := group_spectrum ops left
    let right_masses := group_spectrum ops right
    let T := transport_matrix left_masses right_masses
    let init : List (SPoint α V) × List α × List α :=
      (left.map fun p => { dfltP ops with freq := p.freq },
       List.replicate phases.length 0, List.replicate phases.length 0)
    let r := T.foldl
      (interpTriple ops left right left_masses right_masses phases
        window_size interpolation) init
    (r.1, r.2.1)

/-- Total mass of the list entries from cursor position `i` on
(`getD`-read, default mass `0`). -/
def tailMass (l : List (SpectralMass α)) (i : ℕ) : α :=
  ∑ j in Finset.Ico i l.length, (l.getD j ⟨0, 0, 0, 0⟩).mass

/-- `coversRange b e l`: the masses of `l` tile the bin range `[b, e)`
contiguously — the first `left_bin` is `b`, each following `left_bin` equals
the previous `right_bin`, and the final `right_bin` is `e`. -/
def coversRange : ℕ → ℕ → List (SpectralMass α) → Prop
  | b, e, [] => b = e
  | b, e, m :: rest => m.left_bin = b ∧ coversRange m.right_bin e rest

/-- Magnitude of bin `j` of a spectrum (the `std::abs(spectrum[j].value)`
reads of `group_spectrum`). -/
def binAbs (spectrum : List (SPoint α V)) (j : ℕ) : α :=
  ops.vabs (spectrum.getD j (dfltP ops)).value

/-- Loop invariant of the `group_spectrum` scan after consuming bins
`0 … i-1`: the closed masses tile `[0, cur.left_bin)`, the current mass
starts no later than `i`, and the closed (normalised) masses sum to the
magnitude mass of `[0, cur.left_bin)` divided by the total. -/
def GroupInv (spectrum : List (SPoint α V)) (massSum : α)
    (st : GroupState α) (i : ℕ) : Prop :=
  coversRange 0 st.cur.left_bin st.closedRev.reverse ∧
  st.cur.left_bin ≤ i ∧
  (st.closedRev.map (fun m => m.mass)).sum =
    (∑ j in Finset.range st.cur.left_bin, binAbs ops spectrum j) / massSum

end SpectralLib

section Engines

noncomputable section

/-- DFT angle `2π·n·k/len`. -/
def dftAngle (len n k : ℕ) : ℝ := 2 * Real.pi * n * k / len

/-- Real part of bin `k` of the unnormalised real-input DFT of `x`.
Models the FFTW `r2c` plans (`fftw_plan_dft_r2c_1d`), which are external
library calls computing exactly this sum. -/
def r2cRe (x : List ℝ) (k : ℕ) : ℝ :=
  ∑ n in Finset.range x.length, x.getD n 0 * Real.cos (dftAngle x.length n k)

/-- Imaginary part of bin `k` of the unnormalised real-input DFT of `x`. -/
def r2cIm (x : List ℝ) (k : ℕ) : ℝ :=
  -∑ n in Finset.range x.length, x.getD n 0 * Real.sin (dftAngle x.length n k)

/-- The r2c transform: `bins` complex bins of the DFT of `x`. -/
def r2c (x : List ℝ) (bins : ℕ) : List (ℝ × ℝ) :=
  (List.range bins).map fun k => (r2cRe x k, r2cIm x k)

/-- The unnormalised halfcomplex inverse transform (FFTW `c2r` plans) for
even `len` with `bins = len/2 + 1`: the Hermitian-extension inverse.  Edge
bins (`k = 0` and `2k = len`) enter once, interior bins twice; the
imaginary parts of the edge bins are multiplied by `sin` of a multiple of
`π`, i.e. ignored, as in FFTW's halfcomplex format. -/
def c2r (X : List (ℝ × ℝ)) (len : ℕ) : List ℝ :=
  (List.range len).map fun n =>
    ∑ k in Finset.range X.length,
      (if k = 0 ∨ 2 * k = len then (1 : ℝ) else 2) *
        ((X.getD k (0, 0)).1 * Real.cos (dftAngle len n k) -
          (X.getD k (0, 0)).2 * Real.sin (dftAngle len n k))

/-- `std::abs` of a complex value stored as a pair. -/
def cabs (z : ℝ × ℝ) : ℝ := Real.sqrt (z.1 ^ 2 + z.2 ^ 2)

/-- `std::arg` of a complex value stored as a pair. -/
def carg (z : ℝ × ℝ) : ℝ := Complex.arg ⟨z.1, z.2⟩

/-- `std::polar`. -/
def cpolar (m θ : ℝ) : ℝ × ℝ := (m * Real.cos θ, m * Real.sin θ)

/-- The faithful instantiation of the abstract complex operations used by
the `audio_transport` library: `α := ℝ`, `V := ℂ`. -/
def realVOps : VOps ℝ ℂ where
  vzero := 0
  vadd := (· + ·)
  vsmul := fun a z => (a : ℂ) * z
  vabs := fun z => Complex.abs z
  varg := Complex.arg
  vpolar := fun m θ => ⟨m * Real.cos θ, m * Real.sin θ⟩
  piv := Real.pi

/-! ### The CDF engine (`RealtimeAudioTransport`) -/

/-- State of `RealtimeAudioTransport`.  The configuration fields
(`window_size_` …) are mutable members in the C++ (rewritten only by
`setSampleRate`), so they are part of the state. -/
structure CDFState where
  sample_rate : ℚ
  window_size : ℕ
  hop_size : ℕ
  fft_size : ℕ
  num_bins : ℕ
  window : List ℝ
  main_buffer : List ℝ
  sidechain_buffer : List ℝ
  buffer_write_pos : ℕ
  buffer_read_pos : ℕ
  samples_in_buffer : ℕ
  phases : List ℝ
  ola_buffer : List ℝ
  ola_write_pos : ℕ

/-- The `RealtimeAudioTransport` constructor.  `window_ms·sample_rate/1000`
is truncated to int; the FFT length is the next power of two times
`fft_mult` (`2^⌈log₂ W⌉`, modelled by `Nat.clog`). -/
def mkCDF (sample_rate window_ms : ℚ) (hop_divisor fft_mult : ℕ) :
    CDFState :=
  let W : ℕ := (⌊window_ms * sample_rate / 1000⌋).toNat
  let fft : ℕ := 2 ^ Nat.clog 2 W * fft_mult
  { sample_rate := sample_rate
    window_size := W
    hop_size := W / hop_divisor
    fft_size := fft
    num_bins := fft / 2 + 1
    window := (List.range W).map fun i =>
      1 / 2 * (1 - Real.cos (2 * Real.pi * i / ((W : ℝ) - 1)))
    main_buffer := List.replicate W 0
    sidechain_buffer := List.replicate W 0
    buffer_write_pos := 0
    buffer_read_pos := 0
    samples_in_buffer := 0
    phases := List.replicate (fft / 2 + 1) 0
    ola_buffer := List.replicate (W * 2) 0
    ola_write_pos := 0 }

/-- `getLatencySamples()` of the CDF engine: `window_size_ / 2`. -/
def cdfLatency (st : CDFState) : ℕ := st.window_size / 2

/-- `RealtimeAudioTransport::computeSTFT`: zero-pad the windowed frame
symmetrically into the FFT buffer and transform. -/
def computeSTFT (st : CDFState) (frame : List ℝ) : List (ℝ × ℝ) :=
  let pad := (st.fft_size - st.window_size) / 2
  r2c ((List.range st.fft_size).map fun n =>
    if pad ≤ n ∧ n < pad + st.window_size then
      frame.getD (n - pad) 0 * st.window.getD (n - pad) 0
    else 0) st.num_bins

/-- `RealtimeAudioTransport::computeISTFT`: inverse transform, extract the
centred `window_size` samples, re-window and scale by `1/fft_size`. -/
def computeISTFT (st : CDFState) (spec : List (ℝ × ℝ)) : List ℝ :=
  let y := c2r spec st.fft_size
  let pad := (st.fft_size - st.window_size) / 2
  (List.range st.window_size).map fun i =>
    y.getD (pad + i) 0 * st.window.getD i 0 * (1 / (st.fft_size : ℝ))

/-- Overlap-add of `vals` into the ring `ola` starting at `pos`
(modulo the ring length). -/
def olaAdd (ola : List ℝ) (pos : ℕ) (vals : List ℝ) : List ℝ :=
  (List.range vals.length).foldl
    (fun o j => o.set ((pos + j) % o.length)
      (o.getD ((pos + j) % o.length) 0 + vals.getD j 0)) ola

/-- The hop block of `RealtimeAudioTransport::process`: extract the two
linearised frames, advance the read cursor, analyse, interpolate via
optimal transport, synthesise and overlap-add into the output ring. -/
def cdfHop (st : CDFState) (k : ℝ) : CDFState :=
  let mainFrame := (List.range st.window_size).map fun j =>
    st.main_buffer.getD ((st.buffer_read_pos + j) % st.window_size) 0
  let sideFrame := (List.range st.window_size).map fun j =>
    st.sidechain_buffer.getD ((st.buffer_read_pos + j) % st.window_size) 0
  let specM := computeSTFT st mainFrame
  let specS := computeSTFT st sideFrame
  let magX := (List.range st.num_bins).map fun j => cabs (specM.getD j (0, 0))
  let magY := (List.range st.num_bins).map fun j => cabs (specS.getD j (0, 0))
  let phX := (List.range st.num_bins).map fun j => carg (specM.getD j (0, 0))
  let phY := (List.range st.num_bins).map fun j => carg (specS.getD j (0, 0))
  let r := interpolateSpectrum st.num_bins magX phX magY phY k
  let specOut := (List.range st.num_bins).map fun j =>
    cpolar (r.1.getD j 0) (r.2.getD j 0)
  let outFrame := computeISTFT st specOut
  { st with
    buffer_read_pos := (st.buffer_read_pos + st.hop_size) % st.window_size
    ola_buffer := olaAdd st.ola_buffer st.ola_write_pos outFrame }

/-- One iteration (one sample) of the `process` loop of
`RealtimeAudioTransport`: write the two input samples, fire a hop when a
full hop has accumulated, then read (and clear) one output sample from the
overlap-add ring. -/
def cdfStep (k : ℝ) (st : CDFState) (x : ℝ × ℝ) : CDFState × ℝ :=
  let st1 := { st with
    main_buffer := st.main_buffer.set st.buffer_write_pos x.1
    sidechain_buffer := st.sidechain_buffer.set st.buffer_write_pos x.2
    buffer_write_pos := (st.buffer_write_pos + 1) % st.window_size
    samples_in_buffer := st.samples_in_buffer + 1 }
  let st2 := if st1.hop_size ≤ st1.samples_in_buffer then
      cdfHop { st1 with
        samples_in_buffer := st1.samples_in_buffer - st1.hop_size } k
    else st1
  ({ st2 with
      ola_buffer := st2.ola_buffer.set st2.ola_write_pos 0
      ola_write_pos := (st2.ola_write_pos + 1) % st2.ola_buffer.length },
    st2.ola_buffer.getD st2.ola_write_pos 0)

/-- `RealtimeAudioTransport::process` on a list of sample pairs
`(main, sidechain)`: the per-sample loop, returning the final state and the
output samples in order. -/
def cdfProcess (st : CDFState) (k : ℝ) : List (ℝ × ℝ) → CDFState × List ℝ
  | [] => (st, [])
  | x :: xs =>
    let r := cdfStep k st x
    let rest := cdfProcess r.1 k xs
    (rest.1, r.2 :: rest.2)

/-! ### The reassignment engine (`RealtimeReassignmentTransport`) -/

/-- Modelled from the spec: `spectral.hpp` is not under `src/`.  §4.A gives
the plain Hann window `w[n] = 0.5·(1 − cos(2π n/(L−1)))` for `n ∈ [0, L)`;
`analyzeWindow` calls `spectral::hann` at the centred argument
`n' = n − (L−1)/2`, for which the same window reads
`0.5·(1 + cos(2π n'/(L−1)))`. -/
def hannC (n L : ℝ) : ℝ := 1 / 2 * (1 + Real.cos (2 * Real.pi * n / (L - 1)))

/-- Modelled from the spec: the time-weighted Hann window of §4.A,
`w_t[n'] = (n'/sample_rate) · w[n']` at the centred argument. -/
def hannT (n L sr : ℝ) : ℝ := n / sr * hannC n L

/-- Modelled from the spec: the derivative Hann window of §4.A,
`w_d = (d/dn w)` discretised and scaled to Hz, at the centred argument. -/
def hannD (n L sr : ℝ) : ℝ :=
  -(Real.pi / (L - 1)) * Real.sin (2 * Real.pi * n / (L - 1)) * sr

/-- State of `RealtimeReassignmentTransport`.  The C++ members `window_`,
`window_t_`, `window_d_` are scratch FFT buffers refilled on every
`analyzeWindow` call, so they do not appear here. -/
structure RState where
  sample_rate : ℝ
  window_size_sec : ℝ
  window_samples : ℕ
  window_padded : ℕ
  hop_size : ℕ
  hop_divisor : ℕ
  fft_padding : ℕ
  fft_size : ℕ
  main_buffer : List ℝ
  sidechain_buffer : List ℝ
  input_write_pos : ℕ
  output_buffer : List ℝ
  output_read_pos : ℕ
  phases : List ℝ
  overlap_buffer : List ℝ

/-- `getLatencySamples()` of the reassignment engine:
`(2·hop_divisor − 1)·hop_size`. -/
def reassignLatency (st : RState) : ℕ :=
  (2 * st.hop_divisor - 1) * st.hop_size

/-- The `RealtimeReassignmentTransport` constructor: round the window
length, grow it to a multiple of `2·hop_divisor` (the `while` loop),
compute the padded length `window_samples·(1 + fft_padding)`, the hop
`window_samples/(2·hop_divisor)`, the bin count `window_padded/2 + 1` and
the latency, and allocate all buffers. -/
def mkReassign (sample_rate window_ms : ℚ) (hop_divisor fft_padding : ℕ) :
    RState :=
  let W0 : ℕ := (cround (window_ms / 1000 * sample_rate)).toNat
  let W : ℕ := W0 + (2 * hop_divisor - W0 % (2 * hop_divisor)) %
    (2 * hop_divisor)
  let padded := W * (1 + fft_padding)
  let hop := W / (2 * hop_divisor)
  let latency := (2 * hop_divisor - 1) * hop
  { sample_rate := (sample_rate : ℝ)
    window_size_sec := ((window_ms / 1000 : ℚ) : ℝ)
    window_samples := W
    window_padded := padded
    hop_size := hop
    hop_divisor := hop_divisor
    fft_padding := fft_padding
    fft_size := padded / 2 + 1
    main_buffer := List.replicate (W + hop) 0
    sidechain_buffer := List.replicate (W + hop) 0
    input_write_pos := 0
    output_buffer := List.replicate (latency + hop * 4) 0
    output_read_pos := 0
    phases := List.replicate (padded / 2 + 1) 0
    overlap_buffer := List.replicate (W + hop) 0 }

/-- The zero-padded, `w`-windowed input buffer filled by `analyzeWindow`
(the `window_[i + padding_samples] = a * w(n, L)` loop, for one of the
three window functions `w`). -/
def awBuf (st : RState) (w : ℝ → ℝ) (input : List ℝ) : List ℝ :=
  (List.range st.window_padded).map fun idx =>
    if (st.window_padded - st.window_samples) / 2 ≤ idx ∧
        idx < (st.window_padded - st.window_samples) / 2 +
          st.window_samples then
      input.getD (idx - (st.window_padded - st.window_samples) / 2) 0 *
        w (((idx - (st.window_padded - st.window_samples) / 2 : ℕ) : ℝ) -
          ((st.window_samples : ℝ) - 1) / 2)
    else 0

/-- `RealtimeReassignmentTransport::analyzeWindow`: apply the three Hann
windows at centred arguments into the zero-padded buffers, transform each,
and build the spectral points with nominal frequency
`2π·i/window_padded·sample_rate` and the reassigned frequency/time obtained
from the transform ratios when the bin magnitude exceeds `1e-10`. -/
def analyzeWindow (st : RState) (input : List ℝ) : List (SPoint ℝ ℂ) :=
  let X := r2c (awBuf st (fun n => hannC n st.window_samples) input)
    st.fft_size
  let Xt := r2c (awBuf st (fun n => hannT n st.window_samples st.sample_rate)
    input) st.fft_size
  let Xd := r2c (awBuf st (fun n => hannD n st.window_samples st.sample_rate)
    input) st.fft_size
  (List.range st.fft_size).map fun i =>
    let Xi : ℂ := ⟨(X.getD i (0, 0)).1, (X.getD i (0, 0)).2⟩
    let Xti : ℂ := ⟨(Xt.getD i (0, 0)).1, (Xt.getD i (0, 0)).2⟩
    let Xdi : ℂ := ⟨(Xd.getD i (0, 0)).1, (Xd.getD i (0, 0)).2⟩
    let freq := 2 * Real.pi * i / st.window_padded * st.sample_rate
    { value := Xi
      freq := freq
      time := 0
      freq_reassigned :=
        if 1 / 10000000000 < Complex.abs Xi then
          freq + -(Xdi / Xi).im / (2 * Real.pi)
        else freq
      time_reassigned :=
        if 1 / 10000000000 < Complex.abs Xi then (Xti / Xi).re else 0 }

/-- `RealtimeReassignmentTransport::synthesizeWindow`: inverse transform,
scale by `1/(hop_divisor·window_padded)`, overlap-add into the overlap
buffer, emit the first `hop_size` samples and shift the buffer.  (The
`isfinite` clamp of the source is vacuous in the exact model.)  Returns
`(hop output, new overlap buffer)`. -/
def synthesizeWindow (st : RState) (spectrum : List (SPoint ℝ ℂ)) :
    List ℝ × List ℝ :=
  let y := c2r (spectrum.map fun p => (p.value.re, p.value.im))
    st.window_padded
  let pad := (st.window_padded - st.window_samples) / 2
  let ov1 := (List.range st.window_samples).foldl
    (fun ov i => ov.set i
      (ov.getD i 0 +
        y.getD (i + pad) 0 / ((st.hop_divisor : ℝ) * st.window_padded)))
    st.overlap_buffer
  ((List.range st.hop_size).map fun i => ov1.getD i 0,
    ov1.drop st.hop_size ++ List.replicate st.hop_size 0)

/-- `RealtimeReassignmentTransport::processHop`: analyse both inputs,
interpolate via the `audio_transport` library, synthesise one hop of
output and write it into the output ring at
`output_read_pos + latency + i`. -/
def reassignHop (st : RState) (k : ℝ) : RState :=
  let mainSpec := analyzeWindow st st.main_buffer
  let sideSpec := analyzeWindow st st.sidechain_buffer
  let r := interpolate realVOps mainSpec sideSpec st.phases
    st.window_size_sec k
  let s := synthesizeWindow st r.1
  { st with
    phases := r.2
    overlap_buffer := s.2
    output_buffer := (List.range st.hop_size).foldl
      (fun ob i => ob.set
        ((st.output_read_pos + reassignLatency st + i) % ob.length)
        (s.1.getD i 0)) st.output_buffer }

/-- Input consumption of one sample pair by
`RealtimeReassignmentTransport::process`: write at
`window_samples - hop_size + input_write_pos`, and when a hop is full,
process it and shift both input buffers left by a hop.  (The C++ copies
input in `memcpy` chunks of at most `hop_size - input_write_pos` samples
and checks for a full hop after each chunk; consuming sample by sample is
the same computation, since a hop fires exactly when `input_write_pos`
reaches `hop_size`.) -/
def reassignFeed (k : ℝ) (st : RState) (x : ℝ × ℝ) : RState :=
  let s1 := { st with
    main_buffer := st.main_buffer.set
      (st.window_samples - st.hop_size + st.input_write_pos) x.1
    sidechain_buffer := st.sidechain_buffer.set
      (st.window_samples - st.hop_size + st.input_write_pos) x.2
    input_write_pos := st.input_write_pos + 1 }
  if s1.hop_size ≤ s1.input_write_pos then
    let s2 := reassignHop s1 k
    { s2 with
      main_buffer := s2.main_buffer.drop s2.hop_size ++
        List.replicate s2.hop_size 0
      sidechain_buffer := s2.sidechain_buffer.drop s2.hop_size ++
        List.replicate s2.hop_size 0
      input_write_pos := 0 }
  else s1

/-- Output emission of `RealtimeReassignmentTransport::process`: read one
sample at the read cursor, clear it, advance the cursor. -/
def reassignEmit (p : RState × List ℝ) : RState × List ℝ :=
  let v := p.1.output_buffer.getD p.1.output_read_pos 0
  ({ p.1 with
      output_buffer := p.1.output_buffer.set p.1.output_read_pos 0
      output_read_pos :=
        (p.1.output_read_pos + 1) % p.1.output_buffer.length },
    p.2 ++ [v])

/-- `RealtimeReassignmentTransport::process`: consume all input samples
(firing hops), then copy `buffer_size` output samples from the ring. -/
def reassignProcess (st : RState) (k : ℝ) (main side : List ℝ) :
    RState × List ℝ :=
  let stIn := (main.zip side).foldl (reassignFeed k) st
  (List.range main.length).foldl (fun p _ => reassignEmit p) (stIn, [])

/-- Shorthand for the concrete engine state of the counterexample run
(the `mkReassign 4 1000 2 0` configuration). -/
def stR (mb sb : List ℝ) (ip : ℕ) (ob : List ℝ) (rp : ℕ) (φ ov : List ℝ) :
    RState :=
  ⟨4, 1, 4, 4, 1, 2, 0, 3, mb, sb, ip, ob, rp, φ, ov⟩

end

end Engines

/-- Every element of the list is zero. -/
def allZero {β : Type} [Zero β] (l : List β) : Prop := ∀ x ∈ l, x = 0

/-- Pair version of `allZero` for spectra. -/
def allZeroP (l : List (ℝ × ℝ)) : Prop := ∀ p ∈ l, p = ((0 : ℝ), (0 : ℝ))

/-- All audio state of the CDF engine is zero (phase state not needed). -/
def ZeroCDF (st : CDFState) : Prop :=
  allZero st.main_buffer ∧ allZero st.sidechain_buffer ∧
    allZero st.ola_buffer

/-- All audio state of the reassignment engine is zero (phase state not
needed). -/
def ZeroR (st : RState) : Prop :=
  allZero st.main_buffer ∧ allZero st.sidechain_buffer ∧
    allZero st.output_buffer ∧ allZero st.overlap_buffer

/-- Modelled from the spec: the bin's nominal frequency of §3 (bin-centre,
in Hz), `i · sample_rate / fft_size`, for the CDF engine state. -/
noncomputable def nominalFreqHz (st : CDFState) (i : ℕ) : ℝ :=
  (i : ℝ) * (st.sample_rate : ℝ) / st.fft_size

/-- Modelled from the spec: the phase update of §4.D, "`φ` is then advanced
per bin by `freq·window_size/2`" (window size in seconds), applied to the
engine's carried phase vector. -/
noncomputable def specAdvancePhases (st : CDFState) : List ℝ :=
  (List.range st.phases.length).map fun i =>
    st.phases.getD i 0 +
      nominalFreqHz st i * ((st.window_size : ℝ) / (st.sample_rate : ℝ)) / 2

/-- Modelled from the spec: the silence short-circuit of §4.D, "If one is
below `ε`, return the other scaled by `k`" — the output magnitudes the spec
prescribes when the main spectrum is silent. -/
def cdfSilentScaled {α : Type} [LinearOrderedField α] (magY : List α)
    (k : α) : List α :=
  magY.map fun y => k * y

/-! From here on, only lemmas and theorems: properties of the definitions above. -/

section SpectralCDFLemmas

variable {α : Type} [LinearOrderedField α] [FloorRing α]

/-- `tEps` is positive. -/
lemma tEps_pos : (0 : α) < tEps := by norm_num [tEps]

/-- Correctness of the binary-search loop: given a function monotone on
`[0, N)`, the loop invariants of `computeTransportMap`'s search are
preserved and the result `r` satisfies: `0 ≤ r ≤ N-1`, everything strictly
below `r` fails the test, and either `r` passes the test or `r = N-1` with
every index failing. -/
lemma lowerBoundGo_correct (f : ℕ → α) (c : α) (N : ℕ)
    (mono : ∀ i j : ℕ, i ≤ j → j < N → f i ≤ f j) :
    ∀ (fuel : ℕ) (lo hi res : ℤ),
    (hi + 1 - lo).toNat ≤ fuel →
    0 ≤ lo → hi ≤ (N : ℤ) - 1 →
    0 ≤ res → res ≤ (N : ℤ) - 1 →
    (∀ j : ℕ, (j : ℤ) < lo → j < N → f j < c) →
    (c ≤ f res.toNat ∨ (res = (N : ℤ) - 1 ∧ hi = (N : ℤ) - 1)) →
    (∀ j : ℕ, hi < (j : ℤ) → (j : ℤ) < res → f j < c) →
    0 ≤ lowerBoundGo f c fuel lo hi res ∧
      lowerBoundGo f c fuel lo hi res ≤ (N : ℤ) - 1 ∧
      (∀ j : ℕ, (j : ℤ) < lowerBoundGo f c fuel lo hi res → j < N → f j < c) ∧
      (c ≤ f (lowerBoundGo f c fuel lo hi res).toNat ∨
        (lowerBoundGo f c fuel lo hi res = (N : ℤ) - 1 ∧
          ∀ j : ℕ, j < N → f j < c)) := by
  intro fuel
  induction fuel with
  | zero =>
    intro lo hi res hfuel hlo hhi hres0 hres1 hI2 hI3 hI3s
    have hterm : hi < lo := by omega
    refine ⟨hres0, hres1, ?_, ?_⟩
    · intro j hj hjN
      by_cases hcase : (j : ℤ) < lo
      · exact hI2 j hcase hjN
      · exact hI3s j (by omega) hj
    · rcases hI3 with h | ⟨h1, h2⟩
      · simp only [lowerBoundGo]
        exact Or.inl h
      · refine Or.inr ⟨h1, fun j hjN => hI2 j (by omega) hjN⟩
  | succ fuel ih =>
    intro lo hi res hfuel hlo hhi hres0 hres1 hI2 hI3 hI3s
    by_cases hcond : lo ≤ hi
    · have hmid1 : lo ≤ (lo + hi) / 2 := by omega
      have hmid2 : (lo + hi) / 2 ≤ hi := by omega
      by_cases htest : c ≤ f ((lo + hi) / 2).toNat
      · have hrec := ih lo ((lo + hi) / 2 - 1) ((lo + hi) / 2)
          (by omega) hlo (by omega) (by omega) (by omega) hI2
          (Or.inl htest) (fun j h1 h2 => absurd (by omega : False) id)
        simpa only [lowerBoundGo, if_pos hcond, if_pos htest] using hrec
      · have hI2' : ∀ j : ℕ, (j : ℤ) < (lo + hi) / 2 + 1 → j < N → f j < c := by
          intro j hj hjN
          by_cases hjlo : (j : ℤ) < lo
          · exact hI2 j hjlo hjN
          · have hle : j ≤ ((lo + hi) / 2).toNat := by omega
            have hmidN : ((lo + hi) / 2).toNat < N := by omega
            exact lt_of_le_of_lt (mono j _ hle hmidN) (lt_of_not_le htest)
        have hrec := ih ((lo + hi) / 2 + 1) hi res
          (by omega) (by omega) hhi hres0 hres1 hI2' hI3 hI3s
        simpa only [lowerBoundGo, if_pos hcond, if_neg htest] using hrec
    · have hterm : hi < lo := by omega
      simp only [lowerBoundGo, if_neg hcond]
      refine ⟨hres0, hres1, ?_, ?_⟩
      · intro j hj hjN
        by_cases hcase : (j : ℤ) < lo
        · exact hI2 j hcase hjN
        · exact hI3s j (by omega) hj
      · rcases hI3 with h | ⟨h1, h2⟩
        · exact Or.inl h
        · exact Or.inr ⟨h1, fun j hjN => hI2 j (by omega) hjN⟩

/-- A `getD` read of a list of nonnegative values (default `0`) is
nonnegative. -/
lemma getD_nonneg {mag : List α} (hmag : ∀ x ∈ mag, 0 ≤ x) (t : ℕ) :
    0 ≤ mag.getD t 0 := by
  rcases Nat.lt_or_ge t mag.length with h | h
  · rw [List.getD_eq_getElem mag 0 h]
    exact hmag _ (List.getElem_mem h)
  · rw [List.getD_eq_default mag 0 h]

/-- The CDF `cdfAt mag s` is monotone when the magnitudes are nonnegative
and the (clamped) total is positive. -/
lemma cdfAt_mono (mag : List α) (s : α) (hs : 0 < s)
    (hmag : ∀ x ∈ mag, 0 ≤ x) {i j : ℕ} (hij : i ≤ j) :
    cdfAt mag s i ≤ cdfAt mag s j := by
  unfold cdfAt
  apply Finset.sum_le_sum_of_subset_of_nonneg
  · exact Finset.range_subset.2 (by omega)
  · intro t _ _
    exact div_nonneg (getD_nonneg hmag t) (le_of_lt hs)

/-- Entry-wise characterisation of `computeTransportMap`: each entry `T[i]`
(for `i < N`, with nonnegative magnitude lists) lies in `[0, N-1]`, every
index strictly below it has `cdf_Y` below `cdf_X[i] - eps`, and either
`T[i]` itself satisfies `cdf_Y[T[i]] ≥ cdf_X[i] - eps` or `T[i] = N-1` with
no index satisfying the bound at all. -/
lemma computeTransportMap_entry (N : ℕ) (magX magY : List α)
    (hX : ∀ x ∈ magX, 0 ≤ x) (hY : ∀ y ∈ magY, 0 ≤ y)
    (i : ℕ) (hi : i < N) :
    let sX := max (magSum N magX) tEps
    let sY := max (magSum N magY) tEps
    let t := (computeTransportMap N magX magY).getD i 0
    0 ≤ t ∧ t ≤ (N : ℤ) - 1 ∧
      (∀ j : ℕ, (j : ℤ) < t → j < N → cdfAt magY sY j < cdfAt magX sX i - tEps) ∧
      (cdfAt magX sX i - tEps ≤ cdfAt magY sY t.toNat ∨
        (t = (N : ℤ) - 1 ∧
          ∀ j : ℕ, j < N → cdfAt magY sY j < cdfAt magX sX i - tEps)) := by
  intro sX sY t
  have hsY : (0 : α) < sY := lt_of_lt_of_le tEps_pos (le_max_right _ _)
  have hmono : ∀ a b : ℕ, a ≤ b → b < N →
      cdfAt magY sY a ≤ cdfAt magY sY b :=
    fun a b hab _ => cdfAt_mono magY sY hsY hY hab
  have hget : t = lowerBoundGo (fun j => cdfAt magY sY j)
      (cdfAt magX sX i - tEps) N 0 ((N : ℤ) - 1) ((N : ℤ) - 1) := by
    show (computeTransportMap N magX magY).getD i 0 = _
    unfold computeTransportMap
    rw [List.getD_eq_getElem?_getD, List.getElem?_map, List.getElem?_range hi]
    rfl
  have := lowerBoundGo_correct (fun j => cdfAt magY sY j)
    (cdfAt magX sX i - tEps) N hmono N 0 ((N : ℤ) - 1) ((N : ℤ) - 1)
    (by omega) (by omega) (by omega) (by omega) (by omega)
    (fun j h1 _ => absurd h1 (by omega))
    (Or.inr ⟨rfl, rfl⟩)
    (fun j h1 h2 => absurd (by omega : False) id)
  rw [hget]
  exact this

end SpectralCDFLemmas

section SpectralLibLemmas

variable {α V : Type} [LinearOrderedField α] [FloorRing α]

variable (ops : VOps α V)

lemma tailMass_peel (l : List (SpectralMass α)) (i : ℕ) (h : i < l.length) :
    tailMass l i = (l.getD i ⟨0, 0, 0, 0⟩).mass + tailMass l (i + 1) := by
  unfold tailMass
  exact Finset.sum_eq_sum_Ico_succ_bot h _

lemma tailMass_nil_of_ge (l : List (SpectralMass α)) (i : ℕ)
    (h : l.length ≤ i) : tailMass l i = 0 := by
  unfold tailMass
  rw [Finset.Ico_eq_empty (by omega), Finset.sum_empty]

lemma tailMass_zero (l : List (SpectralMass α)) :
    tailMass l 0 = (l.map (fun m => m.mass)).sum := by
  induction l with
  | nil => simp [tailMass]
  | cons m rest ih =>
    unfold tailMass
    rw [Finset.sum_Ico_eq_sum_range]
    simp only [List.length_cons, Nat.sub_zero, Nat.add_sub_cancel]
    rw [Finset.sum_range_succ']
    simp only [List.getD_cons_succ, List.getD_cons_zero, List.map_cons,
      List.sum_cons]
    rw [add_comm]
    congr 1
    rw [← ih]
    unfold tailMass
    rw [Finset.sum_Ico_eq_sum_range]
    simp

/-- Invariant lemma for the `transport_matrix` loop: with valid cursors,
nonnegative masses, and equal remaining totals on both sides, every emitted
transported mass is nonnegative and the emitted masses sum to exactly the
remaining total. -/
lemma transportGo_thirds (left right : List (SpectralMass α))
    (hL : ∀ m ∈ left, 0 ≤ m.mass) (hR : ∀ m ∈ right, 0 ≤ m.mass) :
    ∀ (fuel li ri : ℕ) (lm rm : α),
    li < left.length → ri < right.length →
    left.length - li + (right.length - ri) ≤ fuel + 1 →
    0 ≤ lm → 0 ≤ rm →
    lm + tailMass left (li + 1) = rm + tailMass right (ri + 1) →
    (∀ t ∈ transportGo left right fuel li ri lm rm, 0 ≤ t.2.2) ∧
      ((transportGo left right fuel li ri lm rm).map (fun t => t.2.2)).sum =
        lm + tailMass left (li + 1) := by
  intro fuel
  induction fuel with
  | zero => intro li ri lm rm h1 h2 h3; omega
  | succ fuel ih =>
    intro li ri lm rm hli hri hfuel hlm hrm hEq
    by_cases hcmp : lm < rm
    · rw [show transportGo left right (fuel + 1) li ri lm rm =
        (li, ri, lm) ::
          (if left.length ≤ li + 1 then []
           else transportGo left right fuel (li + 1) ri
             ((left.getD (li + 1) ⟨0, 0, 0, 0⟩).mass) (rm - lm))
        from by rw [transportGo, if_pos hcmp]]
      by_cases hend : left.length ≤ li + 1
      · rw [if_pos hend]
        refine ⟨?_, ?_⟩
        · intro t ht
          simp only [List.mem_singleton] at ht
          subst ht; exact hlm
        · simp [tailMass_nil_of_ge left (li + 1) hend]
      · rw [if_neg hend]
        have hmem : left.getD (li + 1) ⟨0, 0, 0, 0⟩ ∈ left := by
          rw [List.getD_eq_getElem left ⟨0, 0, 0, 0⟩ (by omega)]
          exact List.getElem_mem (by omega)
        have hrec := ih (li + 1) ri ((left.getD (li + 1) ⟨0, 0, 0, 0⟩).mass)
          (rm - lm) (by omega) hri (by omega) (hL _ hmem) (by linarith)
          (by rw [← tailMass_peel left (li + 1) (by omega)]; linarith)
        refine ⟨?_, ?_⟩
        · intro t ht
          rcases List.mem_cons.1 ht with h | h
          · subst h; exact hlm
          · exact hrec.1 t h
        · simp only [List.map_cons, List.sum_cons, hrec.2]
          rw [← tailMass_peel left (li + 1) (by omega)]
    · rw [show transportGo left right (fuel + 1) li ri lm rm =
        (li, ri, rm) ::
          (if right.length ≤ ri + 1 then []
           else transportGo left right fuel li (ri + 1)
             (lm - rm) ((right.getD (ri + 1) ⟨0, 0, 0, 0⟩).mass))
        from by rw [transportGo, if_neg hcmp]]
      by_cases hend : right.length ≤ ri + 1
      · rw [if_pos hend]
        have : tailMass right (ri + 1) = 0 := tailMass_nil_of_ge right _ hend
        refine ⟨?_, ?_⟩
        · intro t ht
          simp only [List.mem_singleton] at ht
          subst ht; exact hrm
        · simp only [List.map_cons, List.sum_cons, List.map_nil,
            List.sum_nil, add_zero]
          linarith
      · rw [if_neg hend]
        have hmem : right.getD (ri + 1) ⟨0, 0, 0, 0⟩ ∈ right := by
          rw [List.getD_eq_getElem right ⟨0, 0, 0, 0⟩ (by omega)]
          exact List.getElem_mem (by omega)
        have hrec := ih li (ri + 1) (lm - rm)
          ((right.getD (ri + 1) ⟨0, 0, 0, 0⟩).mass) hli (by omega) (by omega)
          (by linarith [not_lt.1 hcmp]) (hR _ hmem)
          (by rw [← tailMass_peel right (ri + 1) (by omega)]; linarith)
        refine ⟨?_, ?_⟩
        · intro t ht
          rcases List.mem_cons.1 ht with h | h
          · subst h; exact hrm
          · exact hrec.1 t h
        · simp only [List.map_cons, List.sum_cons, hrec.2]
          ring

/-- The two-pointer greedy matcher on nonempty nonnegative mass lists that
each sum to `1`: every transported mass is nonnegative and the transported
masses sum to `1`. -/
lemma transport_matrix_thirds (left right : List (SpectralMass α))
    (hLne : left ≠ []) (hRne : right ≠ [])
    (hL : ∀ m ∈ left, 0 ≤ m.mass) (hR : ∀ m ∈ right, 0 ≤ m.mass)
    (hLsum : (left.map (fun m => m.mass)).sum = 1)
    (hRsum : (right.map (fun m => m.mass)).sum = 1) :
    (∀ t ∈ transport_matrix left right, 0 ≤ t.2.2) ∧
      ((transport_matrix left right).map (fun t => t.2.2)).sum = 1 := by
  match left, hLne, right, hRne with
  | l0 :: ls, _, r0 :: rs, _ =>
    have hpeelL : l0.mass + tailMass (l0 :: ls) 1 = 1 := by
      have := tailMass_peel (l0 :: ls) 0 (by simp)
      rw [tailMass_zero, hLsum] at this
      simpa using this.symm
    have hpeelR : r0.mass + tailMass (r0 :: rs) 1 = 1 := by
      have := tailMass_peel (r0 :: rs) 0 (by simp)
      rw [tailMass_zero, hRsum] at this
      simpa using this.symm
    have := transportGo_thirds (l0 :: ls) (r0 :: rs) hL hR
      ((l0 :: ls).length + (r0 :: rs).length) 0 0 l0.mass r0.mass
      (by simp) (by simp) (by omega)
      (hL l0 (by simp)) (hR r0 (by simp)) (by rw [hpeelL, hpeelR])
    unfold transport_matrix
    exact ⟨this.1, by rw [this.2, hpeelL]⟩

lemma coversRange_append {b c e : ℕ} {l1 l2 : List (SpectralMass α)}
    (h1 : coversRange b c l1) (h2 : coversRange c e l2) :
    coversRange b e (l1 ++ l2) := by
  induction l1 generalizing b with
  | nil =>
    have hbc : b = c := h1
    subst hbc
    simpa using h2
  | cons m rest ih =>
    exact ⟨h1.1, ih h1.2⟩

lemma groupStep_inv (spectrum : List (SPoint α V)) (massSum : α)
    (st : GroupState α) (i : ℕ)
    (h : GroupInv ops spectrum massSum st i) :
    GroupInv ops spectrum massSum (groupStep ops spectrum massSum st i)
      (i + 1) := by
  obtain ⟨hcov, hle, hsum⟩ := h
  simp only [groupStep]
  split_ifs with h1 h2 h3 h4 h5
  · exact ⟨hcov, Nat.le_succ_of_le hle, hsum⟩
  · exact ⟨hcov, Nat.le_succ_of_le hle, hsum⟩
  · exact ⟨hcov, Nat.le_succ_of_le hle, hsum⟩
  · exact ⟨hcov, Nat.le_succ_of_le hle, hsum⟩
  · refine ⟨?_, Nat.le_succ i, ?_⟩
    · simp only [List.reverse_cons]
      exact coversRange_append hcov ⟨rfl, rfl⟩
    · simp only [List.map_cons, List.sum_cons, hsum, binAbs]
      rw [div_add_div_same, add_comm]
      congr 1
      exact Finset.sum_range_add_sum_Ico
        (fun j => ops.vabs (spectrum.getD j (dfltP ops)).value) hle
  · exact ⟨hcov, Nat.le_succ_of_le hle, hsum⟩

lemma groupFold_inv (spectrum : List (SPoint α V)) (massSum : α) (N : ℕ) :
    GroupInv ops spectrum massSum
      ((List.range N).foldl (groupStep ops spectrum massSum)
        ⟨[], ⟨0, 0, 0, 0⟩, false, true⟩) N := by
  induction N with
  | zero =>
    exact ⟨rfl, le_refl 0, by simp⟩
  | succ n ih =>
    rw [List.range_succ, List.foldl_append, List.foldl_cons, List.foldl_nil]
    exact groupStep_inv ops spectrum massSum _ n ih

/-- `group_spectrum` invariants: the result is nonempty and tiles `[0, N)`;
in the silence-degenerate path it is the single unit mass over `[0, N)`
centred at `N/2`; otherwise the normalised masses sum to exactly `1`. -/
lemma group_spectrum_invariants (spectrum : List (SPoint α V)) :
    group_spectrum ops spectrum ≠ [] ∧
    coversRange 0 spectrum.length (group_spectrum ops spectrum) ∧
    ((∑ j in Finset.range spectrum.length, binAbs ops spectrum j) < tEps →
      group_spectrum ops spectrum =
        [⟨0, spectrum.length / 2, spectrum.length, 1⟩]) ∧
    (¬ (∑ j in Finset.range spectrum.length, binAbs ops spectrum j) < tEps →
      ((group_spectrum ops spectrum).map (fun m => m.mass)).sum = 1) := by
  simp only [binAbs]
  by_cases hs : (∑ j in Finset.range spectrum.length,
      ops.vabs (spectrum.getD j (dfltP ops)).value) < tEps
  · have hgs : group_spectrum ops spectrum =
        [⟨0, spectrum.length / 2, spectrum.length, 1⟩] := by
      simp only [group_spectrum]
      rw [if_pos hs]
    refine ⟨by simp [hgs], ?_, fun _ => hgs, fun hc => absurd hs hc⟩
    rw [hgs]
    exact ⟨rfl, rfl⟩
  · have hinv := groupFold_inv ops spectrum
      (∑ j in Finset.range spectrum.length,
        ops.vabs (spectrum.getD j (dfltP ops)).value)
      spectrum.length
    simp only [group_spectrum, if_neg hs]
    set st := (List.range spectrum.length).foldl
      (groupStep ops spectrum
        (∑ j in Finset.range spectrum.length,
          ops.vabs (spectrum.getD j (dfltP ops)).value))
      ⟨[], ⟨0, 0, 0, 0⟩, false, true⟩ with hst
    obtain ⟨hcov, hle, hsum⟩ := hinv
    simp only [binAbs] at hsum
    have hSpos : (0 : α) < ∑ j in Finset.range spectrum.length,
        ops.vabs (spectrum.getD j (dfltP ops)).value :=
      lt_of_lt_of_le tEps_pos (not_lt.1 hs)
    refine ⟨by simp, ?_, fun hc => absurd hc hs, fun _ => ?_⟩
    · exact coversRange_append hcov ⟨rfl, rfl⟩
    · simp only [List.map_append, List.sum_append, List.map_reverse,
        List.sum_reverse, List.map_cons, List.sum_cons, List.map_nil,
        List.sum_nil, add_zero, hsum]
      rw [div_add_div_same, Finset.sum_range_add_sum_Ico
        (fun j => ops.vabs (spectrum.getD j (dfltP ops)).value) hle,
        div_self (ne_of_gt hSpos)]

lemma placeStep_length (mass : SpectralMass α) (center_bin : ℤ)
    (scale1 phase_shift interpolated_freq next_phase : α)
    (input : List (SPoint α V))
    (st : List (SPoint α V) × List α × List α) (i : ℕ) :
    (placeStep ops mass center_bin scale1 phase_shift interpolated_freq
      next_phase input st i).1.length = st.1.length := by
  simp only [placeStep]
  split_ifs <;> simp

/-- A `placeStep` at source bin `i` leaves every output bin other than the
shifted destination `i + center_bin - mass.center_bin` unchanged. -/
lemma placeStep_get?_skip (mass : SpectralMass α) (center_bin : ℤ)
    (scale1 phase_shift interpolated_freq next_phase : α)
    (input : List (SPoint α V))
    (st : List (SPoint α V) × List α × List α) (i j : ℕ)
    (hne : (i : ℤ) + center_bin - (mass.center_bin : ℤ) ≠ (j : ℤ)) :
    (placeStep ops mass center_bin scale1 phase_shift interpolated_freq
      next_phase input st i).1.get? j = st.1.get? j := by
  simp only [placeStep]
  split_ifs with h1 h2 h3
  · rfl
  · rfl
  · have hnat : ((i : ℤ) + center_bin - (mass.center_bin : ℤ)).toNat ≠ j := by
      omega
    rw [List.get?_set_ne _ _ hnat, List.get?_set_ne _ _ hnat]
  · have hnat : ((i : ℤ) + center_bin - (mass.center_bin : ℤ)).toNat ≠ j := by
      omega
    rw [List.get?_set_ne _ _ hnat]

lemma placeFold_untouched (mass : SpectralMass α) (center_bin : ℤ)
    (scale1 phase_shift interpolated_freq next_phase : α)
    (input : List (SPoint α V)) :
    ∀ (l : List ℕ) (st : List (SPoint α V) × List α × List α),
    (l.foldl (placeStep ops mass center_bin scale1 phase_shift
      interpolated_freq next_phase input) st).1.length = st.1.length ∧
    (∀ j : ℕ,
      (∀ i ∈ l, (i : ℤ) + center_bin - (mass.center_bin : ℤ) ≠ (j : ℤ)) →
      (l.foldl (placeStep ops mass center_bin scale1 phase_shift
        interpolated_freq next_phase input) st).1.get? j = st.1.get? j) := by
  intro l
  induction l with
  | nil => exact fun st => ⟨rfl, fun _ _ => rfl⟩
  | cons i rest ih =>
    intro st
    simp only [List.foldl_cons]
    refine ⟨?_, ?_⟩
    · rw [(ih _).1, placeStep_length]
    · intro j hj
      rw [(ih _).2 j (fun i' hi' => hj i' (List.mem_cons_of_mem _ hi')),
        placeStep_get?_skip ops mass center_bin scale1 phase_shift
          interpolated_freq next_phase input st i j
          (hj i (List.mem_cons_self _ _))]

/-- `place_mass` bounds: the output keeps its length, and every output bin
that is not the shifted image `i + center_bin - mass.center_bin` of some
source bin `i ∈ [left_bin, right_bin)` is unchanged — in particular every
contribution whose shifted destination falls outside `[0, N)` is dropped
without wrapping. -/
lemma place_mass_untouched (mass : SpectralMass α) (center_bin : ℤ)
    (scale interpolated_freq center_phase : α)
    (input output : List (SPoint α V)) (next_phase : α)
    (phases amplitudes : List α) :
    (place_mass ops mass center_bin scale interpolated_freq center_phase
      input output next_phase phases amplitudes).1.length = output.length ∧
    (∀ j : ℕ,
      (∀ i : ℕ, mass.left_bin ≤ i → i < mass.right_bin →
        (i : ℤ) + center_bin - (mass.center_bin : ℤ) ≠ (j : ℤ)) →
      (place_mass ops mass center_bin scale interpolated_freq center_phase
        input output next_phase phases amplitudes).1.get? j =
        output.get? j) := by
  have main := fun (s1 ps : α) => placeFold_untouched ops mass center_bin
    s1 ps interpolated_freq next_phase input
    (List.range' mass.left_bin (mass.right_bin - mass.left_bin))
    (output, phases, amplitudes)
  simp only [place_mass]
  split_ifs with h1 h2
  · exact ⟨rfl, fun _ _ => rfl⟩
  · refine ⟨(main _ _).1, fun j hj => (main _ _).2 j ?_⟩
    intro i hi
    rw [List.mem_range'_1] at hi
    exact hj i hi.1 (by omega)
  · refine ⟨(main _ _).1, fun j hj => (main _ _).2 j ?_⟩
    intro i hi
    rw [List.mem_range'_1] at hi
    exact hj i hi.1 (by omega)

end SpectralLibLemmas

lemma allZero_getD {β : Type} [Zero β] {l : List β} (h : allZero l) (n : ℕ) :
    l.getD n 0 = 0 := by
  rcases Nat.lt_or_ge n l.length with hn | hn
  · rw [List.getD_eq_getElem l 0 hn]
    exact h _ (List.getElem_mem hn)
  · exact List.getD_eq_default l 0 hn

lemma allZero_replicate {β : Type} [Zero β] (n : ℕ) :
    allZero (List.replicate n (0 : β)) := fun x hx =>
  (List.eq_of_mem_replicate hx)

lemma allZero_set {β : Type} [Zero β] {l : List β} (h : allZero l) {x : β}
    (hx : x = 0) (i : ℕ) : allZero (l.set i x) := by
  intro y hy
  rcases List.mem_or_eq_of_mem_set hy with h1 | h1
  · exact h y h1
  · rw [h1, hx]

lemma allZero_append {β : Type} [Zero β] {l1 l2 : List β} (h1 : allZero l1)
    (h2 : allZero l2) : allZero (l1 ++ l2) := by
  intro y hy
  rcases List.mem_append.1 hy with h | h
  · exact h1 y h
  · exact h2 y h

lemma allZero_drop {β : Type} [Zero β] {l : List β} (h : allZero l) (n : ℕ) :
    allZero (l.drop n) := fun y hy => h y (List.mem_of_mem_drop hy)

lemma allZeroP_getD {l : List (ℝ × ℝ)} (h : allZeroP l) (n : ℕ) :
    l.getD n (0, 0) = ((0 : ℝ), (0 : ℝ)) := by
  rcases Nat.lt_or_ge n l.length with hn | hn
  · rw [List.getD_eq_getElem l (0, 0) hn]
    exact h _ (List.getElem_mem hn)
  · exact List.getD_eq_default l (0, 0) hn

lemma r2c_zero {x : List ℝ} (h : allZero x) (bins : ℕ) :
    allZeroP (r2c x bins) := by
  intro p hp
  simp only [r2c, List.mem_map] at hp
  obtain ⟨k, _, hk⟩ := hp
  rw [← hk]
  have hre : r2cRe x k = 0 := by
    unfold r2cRe
    exact Finset.sum_eq_zero fun n _ => by rw [allZero_getD h n, zero_mul]
  have him : r2cIm x k = 0 := by
    unfold r2cIm
    rw [neg_eq_zero]
    exact Finset.sum_eq_zero fun n _ => by rw [allZero_getD h n, zero_mul]
  rw [hre, him]

lemma c2r_zero {X : List (ℝ × ℝ)} (h : allZeroP X) (len : ℕ) :
    allZero (c2r X len) := by
  intro v hv
  simp only [c2r, List.mem_map] at hv
  obtain ⟨n, _, hn⟩ := hv
  rw [← hn]
  refine Finset.sum_eq_zero fun k _ => ?_
  rw [allZeroP_getD h k]
  simp

lemma cabs_zero : cabs ((0 : ℝ), (0 : ℝ)) = 0 := by
  simp [cabs]

lemma cpolar_zero (θ : ℝ) : cpolar 0 θ = ((0 : ℝ), (0 : ℝ)) := by
  simp [cpolar]

lemma computeSTFT_zero (st : CDFState) {frame : List ℝ}
    (h : allZero frame) : allZeroP (computeSTFT st frame) := by
  apply r2c_zero
  intro x hx
  simp only [List.mem_map] at hx
  obtain ⟨n, _, hn⟩ := hx
  rw [← hn]
  split_ifs
  · rw [allZero_getD h, zero_mul]
  · rfl

lemma depositStep_magOut_zero {N : ℕ} {magX phX magY : List ℝ}
    {T : List ℤ} {k : ℝ} (hX : allZero magX) (hY : allZero magY)
    {st : DepositState ℝ} (hst : allZero st.magOut) (i : ℕ) :
    allZero (depositStep N magX phX magY T k st i).magOut := by
  have him : (1 - k) * magX.getD i 0 +
      k * magY.getD (T.getD i 0).toNat 0 = 0 := by
    rw [allZero_getD hX, allZero_getD hY, mul_zero, mul_zero, add_zero]
  simp only [depositStep, him, mul_zero, add_zero]
  split_ifs with h1 h2
  · exact allZero_set (allZero_set hst (allZero_getD hst _) _)
      (allZero_getD (allZero_set hst (allZero_getD hst _) _) _) _
  · exact allZero_set hst (allZero_getD hst _) _
  · exact allZero_set hst (allZero_getD hst _) _
  · exact hst

lemma interpolateSpectrum_magOut_zero (N : ℕ) {magX phX magY phY : List ℝ}
    (hX : allZero magX) (hY : allZero magY) (k : ℝ) :
    allZero (interpolateSpectrum N magX phX magY phY k).1 := by
  simp only [interpolateSpectrum]
  have : ∀ (l : List ℕ) (st : DepositState ℝ), allZero st.magOut →
      allZero ((l.foldl
        (depositStep N magX phX magY
          (computeTransportMap N magX magY) k) st).magOut) := by
    intro l
    induction l with
    | nil => exact fun st h => h
    | cons i rest ih =>
      intro st h
      exact ih _ (depositStep_magOut_zero hX hY h i)
  exact this _ _ (allZero_replicate N)

lemma computeISTFT_zero (st : CDFState) {spec : List (ℝ × ℝ)}
    (h : allZeroP spec) : allZero (computeISTFT st spec) := by
  intro v hv
  simp only [computeISTFT, List.mem_map] at hv
  obtain ⟨i, _, hi⟩ := hv
  rw [← hi, allZero_getD (c2r_zero h st.fft_size), zero_mul, zero_mul]

lemma olaAdd_zero {ola : List ℝ} (h : allZero ola) {vals : List ℝ}
    (hv : allZero vals) (pos : ℕ) : allZero (olaAdd ola pos vals) := by
  unfold olaAdd
  have : ∀ (l : List ℕ) (o : List ℝ), allZero o →
      allZero (l.foldl (fun o j => o.set ((pos + j) % o.length)
        (o.getD ((pos + j) % o.length) 0 + vals.getD j 0)) o) := by
    intro l
    induction l with
    | nil => exact fun o ho => ho
    | cons j rest ih =>
      intro o ho
      exact ih _ (allZero_set ho
        (by rw [allZero_getD ho, allZero_getD hv, add_zero]) _)
  exact this _ _ h

lemma cdfHop_zero {st : CDFState} (h : ZeroCDF st) (k : ℝ) :
    ZeroCDF (cdfHop st k) := by
  obtain ⟨hm, hs, ho⟩ := h
  have hframe : ∀ buf : List ℝ, allZero buf →
      allZero ((List.range st.window_size).map fun j =>
        buf.getD ((st.buffer_read_pos + j) % st.window_size) 0) := by
    intro buf hbuf x hx
    simp only [List.mem_map] at hx
    obtain ⟨j, _, hj⟩ := hx
    rw [← hj, allZero_getD hbuf]
  have hmagX : allZero ((List.range st.num_bins).map fun j =>
      cabs ((computeSTFT st ((List.range st.window_size).map fun j =>
        st.main_buffer.getD ((st.buffer_read_pos + j) % st.window_size)
          0)).getD j (0, 0))) := by
    intro x hx
    simp only [List.mem_map] at hx
    obtain ⟨j, _, hj⟩ := hx
    rw [← hj, allZeroP_getD (computeSTFT_zero st (hframe _ hm)) j, cabs_zero]
  have hmagY : allZero ((List.range st.num_bins).map fun j =>
      cabs ((computeSTFT st ((List.range st.window_size).map fun j =>
        st.sidechain_buffer.getD
          ((st.buffer_read_pos + j) % st.window_size) 0)).getD j (0, 0))) := by
    intro x hx
    simp only [List.mem_map] at hx
    obtain ⟨j, _, hj⟩ := hx
    rw [← hj, allZeroP_getD (computeSTFT_zero st (hframe _ hs)) j, cabs_zero]
  refine ⟨hm, hs, ?_⟩
  simp only [cdfHop]
  apply olaAdd_zero ho
  apply computeISTFT_zero
  intro p hp
  simp only [List.mem_map] at hp
  obtain ⟨j, _, hj⟩ := hp
  rw [← hj, allZero_getD (interpolateSpectrum_magOut_zero st.num_bins
    hmagX hmagY k), cpolar_zero]

lemma cdfStep_zero {st : CDFState} (h : ZeroCDF st) (k : ℝ) :
    ZeroCDF (cdfStep k st ((0 : ℝ), (0 : ℝ))).1 ∧
      (cdfStep k st ((0 : ℝ), (0 : ℝ))).2 = 0 := by
  obtain ⟨hm, hs, ho⟩ := h
  simp only [cdfStep]
  have h1 : ZeroCDF { st with
      main_buffer := st.main_buffer.set st.buffer_write_pos 0
      sidechain_buffer := st.sidechain_buffer.set st.buffer_write_pos 0
      buffer_write_pos := (st.buffer_write_pos + 1) % st.window_size
      samples_in_buffer := st.samples_in_buffer + 1 } :=
    ⟨allZero_set hm rfl _, allZero_set hs rfl _, ho⟩
  split_ifs with hc
  · have h2 := @cdfHop_zero { st with
      main_buffer := st.main_buffer.set st.buffer_write_pos 0
      sidechain_buffer := st.sidechain_buffer.set st.buffer_write_pos 0
      buffer_write_pos := (st.buffer_write_pos + 1) % st.window_size
      samples_in_buffer := st.samples_in_buffer + 1 - st.hop_size }
      ⟨allZero_set hm rfl _, allZero_set hs rfl _, ho⟩ k
    exact ⟨⟨h2.1, h2.2.1, allZero_set h2.2.2 rfl _⟩,
      allZero_getD h2.2.2 _⟩
  · exact ⟨⟨h1.1, h1.2.1, allZero_set ho rfl _⟩, allZero_getD ho _⟩

lemma cdfProcess_zero {st : CDFState} (h : ZeroCDF st) (k : ℝ) :
    ∀ ins : List (ℝ × ℝ), (∀ x ∈ ins, x = ((0 : ℝ), (0 : ℝ))) →
    ZeroCDF (cdfProcess st k ins).1 ∧ allZero (cdfProcess st k ins).2 := by
  intro ins
  induction ins generalizing st with
  | nil => exact fun _ => ⟨h, fun x hx => absurd hx (List.not_mem_nil x)⟩
  | cons x xs ih =>
    intro hins
    have hx0 : x = ((0 : ℝ), (0 : ℝ)) := hins x (List.mem_cons_self _ _)
    subst hx0
    have hstep := cdfStep_zero h k
    simp only [cdfProcess]
    have hrest := @ih (cdfStep k st ((0 : ℝ), (0 : ℝ))).1 hstep.1
      (fun y hy => hins y (List.mem_cons_of_mem _ hy))
    refine ⟨hrest.1, ?_⟩
    intro v hv
    rcases List.mem_cons.1 hv with h1 | h1
    · rw [h1, hstep.2]
    · exact hrest.2 v h1

lemma allZero_foldl {γ : Type} (l : List γ) (g : List ℝ → γ → List ℝ)
    (hg : ∀ o x, allZero o → allZero (g o x)) :
    ∀ o, allZero o → allZero (l.foldl g o) := by
  induction l with
  | nil => exact fun o h => h
  | cons x rest ih => exact fun o h => ih _ (hg o x h)

/-- Silent-input short-circuit of `audio_transport::interpolate`: when all
magnitudes on both sides vanish, the output spectrum is zero-valued (with
the left frequencies) and the phase vector is returned unchanged. -/
lemma interpolate_both_silent {α V : Type} [LinearOrderedField α]
    [FloorRing α] (ops : VOps α V) (left right : List (SPoint α V))
    (phases : List α) (ws k : α)
    (hL : ∀ p ∈ left, ops.vabs p.value = 0)
    (hR : ∀ p ∈ right, ops.vabs p.value = 0) :
    interpolate ops left right phases ws k =
      (left.map fun p => { dfltP ops with freq := p.freq }, phases) := by
  have hsumL : ∑ i in Finset.range left.length,
      ops.vabs ((left.getD i (dfltP ops)).value) = 0 :=
    Finset.sum_eq_zero fun i hi => by
      rw [Finset.mem_range] at hi
      rw [List.getD_eq_getElem left _ hi]
      exact hL _ (List.getElem_mem hi)
  have hsumR : ∑ i in Finset.range right.length,
      ops.vabs ((right.getD i (dfltP ops)).value) = 0 :=
    Finset.sum_eq_zero fun i hi => by
      rw [Finset.mem_range] at hi
      rw [List.getD_eq_getElem right _ hi]
      exact hR _ (List.getElem_mem hi)
  simp only [interpolate]
  rw [if_pos ⟨by rw [hsumL]; exact tEps_pos, by rw [hsumR]; exact tEps_pos⟩]

lemma awBuf_zero (st : RState) (w : ℝ → ℝ) {input : List ℝ}
    (h : allZero input) : allZero (awBuf st w input) := by
  intro x hx
  simp only [awBuf, List.mem_map] at hx
  obtain ⟨n, _, hn⟩ := hx
  rw [← hn]
  split_ifs
  · rw [allZero_getD h, zero_mul]
  · rfl

lemma analyzeWindow_value_zero (st : RState) {input : List ℝ}
    (h : allZero input) :
    ∀ p ∈ analyzeWindow st input, p.value = (0 : ℂ) := by
  intro p hp
  simp only [analyzeWindow, List.mem_map] at hp
  obtain ⟨i, _, hi⟩ := hp
  rw [← hi]
  have := allZeroP_getD
    (r2c_zero (awBuf_zero st (fun n => hannC n st.window_samples) h)
      st.fft_size) i
  simp only [this]
  rfl

lemma synthesizeWindow_zero (st : RState) (hov : allZero st.overlap_buffer)
    {spec : List (SPoint ℝ ℂ)} (hsp : ∀ p ∈ spec, p.value = (0 : ℂ)) :
    allZero (synthesizeWindow st spec).1 ∧
      allZero (synthesizeWindow st spec).2 := by
  have hy : allZero (c2r (spec.map fun p => (p.value.re, p.value.im))
      st.window_padded) := by
    apply c2r_zero
    intro q hq
    simp only [List.mem_map] at hq
    obtain ⟨p, hp, hpq⟩ := hq
    rw [← hpq, hsp p hp]
    simp
  have hov1 : allZero ((List.range st.window_samples).foldl
      (fun ov i => ov.set i
        (ov.getD i 0 +
          (c2r (spec.map fun p => (p.value.re, p.value.im))
            st.window_padded).getD
              (i + (st.window_padded - st.window_samples) / 2) 0 /
            ((st.hop_divisor : ℝ) * st.window_padded)))
      st.overlap_buffer) := by
    apply allZero_foldl
    · intro o i ho
      apply allZero_set ho
      rw [allZero_getD ho, allZero_getD hy, zero_div, add_zero]
    · exact hov
  constructor
  · intro v hv
    simp only [synthesizeWindow, List.mem_map] at hv
    obtain ⟨i, _, hi⟩ := hv
    rw [← hi]
    exact allZero_getD hov1 i
  · exact allZero_append (allZero_drop hov1 _) (allZero_replicate _)

lemma reassignHop_zero {st : RState} (h : ZeroR st) (k : ℝ) :
    ZeroR (reassignHop st k) := by
  obtain ⟨hm, hs, ho, hov⟩ := h
  have hmain := analyzeWindow_value_zero st hm
  have hside := analyzeWindow_value_zero st hs
  have hint := interpolate_both_silent realVOps
    (analyzeWindow st st.main_buffer) (analyzeWindow st st.sidechain_buffer)
    st.phases st.window_size_sec k
    (fun p hp => by rw [hmain p hp]; exact map_zero Complex.abs)
    (fun p hp => by rw [hside p hp]; exact map_zero Complex.abs)
  have hspz : ∀ p ∈ (interpolate realVOps (analyzeWindow st st.main_buffer)
      (analyzeWindow st st.sidechain_buffer) st.phases
      st.window_size_sec k).1, p.value = (0 : ℂ) := by
    rw [hint]
    intro p hp
    simp only [List.mem_map] at hp
    obtain ⟨q, _, hq⟩ := hp
    rw [← hq]
    rfl
  have hsynth := synthesizeWindow_zero st hov hspz
  refine ⟨hm, hs, ?_, hsynth.2⟩
  simp only [reassignHop]
  apply allZero_foldl
  · intro o i ho'
    exact allZero_set ho' (allZero_getD hsynth.1 i) _
  · exact ho

lemma reassignFeed_zero {st : RState} (h : ZeroR st) (k : ℝ) :
    ZeroR (reassignFeed k st ((0 : ℝ), (0 : ℝ))) := by
  obtain ⟨hm, hs, ho, hov⟩ := h
  simp only [reassignFeed]
  have h1 : ZeroR { st with
      main_buffer := st.main_buffer.set
        (st.window_samples - st.hop_size + st.input_write_pos) 0
      sidechain_buffer := st.sidechain_buffer.set
        (st.window_samples - st.hop_size + st.input_write_pos) 0
      input_write_pos := st.input_write_pos + 1 } :=
    ⟨allZero_set hm rfl _, allZero_set hs rfl _, ho, hov⟩
  split_ifs with hc
  · have h2 := reassignHop_zero h1 k
    exact ⟨allZero_append (allZero_drop h2.1 _) (allZero_replicate _),
      allZero_append (allZero_drop h2.2.1 _) (allZero_replicate _),
      h2.2.2.1, h2.2.2.2⟩
  · exact h1

lemma reassignEmit_zero {p : RState × List ℝ} (h : ZeroR p.1)
    (hout : allZero p.2) :
    ZeroR (reassignEmit p).1 ∧ allZero (reassignEmit p).2 ∧
      (reassignEmit p).2.length = p.2.length + 1 := by
  obtain ⟨hm, hs, ho, hov⟩ := h
  refine ⟨⟨hm, hs, allZero_set ho rfl _, hov⟩, ?_, by simp [reassignEmit]⟩
  exact allZero_append hout (fun x hx => by
    rw [List.mem_singleton.1 hx]
    exact allZero_getD ho _)

lemma reassignProcess_zero {st : RState} (h : ZeroR st) (k : ℝ)
    (main side : List ℝ) (hmain : allZero main) (hside : allZero side) :
    ZeroR (reassignProcess st k main side).1 ∧
      (reassignProcess st k main side).2 =
        List.replicate main.length 0 := by
  have hfeed : ZeroR ((main.zip side).foldl (reassignFeed k) st) := by
    have : ∀ (l : List (ℝ × ℝ)) (s : RState), ZeroR s →
        (∀ x ∈ l, x = ((0 : ℝ), (0 : ℝ))) →
        ZeroR (l.foldl (reassignFeed k) s) := by
      intro l
      induction l with
      | nil => exact fun s hs _ => hs
      | cons x xs ih =>
        intro s hs hl
        have hx := hl x (List.mem_cons_self _ _)
        subst hx
        exact ih _ (reassignFeed_zero hs k)
          (fun y hy => hl y (List.mem_cons_of_mem _ hy))
    apply this _ _ h
    intro x hx
    have := List.mem_zip hx
    have h1 := hmain _ this.1
    have h2 := hside _ this.2
    cases x
    simp only at h1 h2
    rw [h1, h2]
  have hemit : ∀ (n : ℕ) (p : RState × List ℝ), ZeroR p.1 → allZero p.2 →
      ZeroR ((List.range n).foldl (fun q _ => reassignEmit q) p).1 ∧
        allZero ((List.range n).foldl (fun q _ => reassignEmit q) p).2 ∧
        ((List.range n).foldl (fun q _ => reassignEmit q) p).2.length =
          p.2.length + n := by
    intro n
    induction n with
    | zero => exact fun p h1 h2 => ⟨h1, h2, rfl⟩
    | succ m ih =>
      intro p h1 h2
      rw [List.range_succ, List.foldl_append, List.foldl_cons, List.foldl_nil]
      have hm := ih p h1 h2
      have he := reassignEmit_zero hm.1 hm.2.1
      exact ⟨he.1, he.2.1, by rw [he.2.2, hm.2.2]; ring⟩
  have hr := hemit main.length (((main.zip side).foldl (reassignFeed k) st),
    []) hfeed (fun x hx => absurd hx (List.not_mem_nil x))
  refine ⟨hr.1, ?_⟩
  apply List.eq_replicate.2
  refine ⟨by simpa using hr.2.2, fun b hb => hr.2.1 b hb⟩

/-- The per-sample loop of `RealtimeAudioTransport::process` is oblivious
to call boundaries: processing `xs ++ ys` equals processing `xs`, then `ys`
from the resulting state, with concatenated outputs. -/
lemma cdfProcess_append (k : ℝ) (xs ys : List (ℝ × ℝ)) :
    ∀ st : CDFState,
    (cdfProcess st k (xs ++ ys)).1 =
      (cdfProcess (cdfProcess st k xs).1 k ys).1 ∧
    (cdfProcess st k (xs ++ ys)).2 =
      (cdfProcess st k xs).2 ++ (cdfProcess (cdfProcess st k xs).1 k ys).2 := by
  induction xs with
  | nil => exact fun st => ⟨rfl, rfl⟩
  | cons x xs ih =>
    intro st
    simp only [List.cons_append, cdfProcess, List.append_eq]
    refine ⟨(ih _).1, ?_⟩
    rw [(ih _).2]

/-- `process` never touches the configuration fields or the phase vector of
the CDF engine (one step). -/
lemma cdfStep_preserves (k : ℝ) (st : CDFState) (x : ℝ × ℝ) :
    (cdfStep k st x).1.window_size = st.window_size ∧
    (cdfStep k st x).1.hop_size = st.hop_size ∧
    (cdfStep k st x).1.fft_size = st.fft_size ∧
    (cdfStep k st x).1.num_bins = st.num_bins ∧
    (cdfStep k st x).1.sample_rate = st.sample_rate ∧
    (cdfStep k st x).1.phases = st.phases := by
  simp only [cdfStep, cdfHop]
  split_ifs <;> exact ⟨rfl, rfl, rfl, rfl, rfl, rfl⟩

/-- `process` never touches the configuration fields or the phase vector of
the CDF engine. -/
lemma cdfProcess_preserves (k : ℝ) (ins : List (ℝ × ℝ)) :
    ∀ st : CDFState,
    (cdfProcess st k ins).1.window_size = st.window_size ∧
    (cdfProcess st k ins).1.hop_size = st.hop_size ∧
    (cdfProcess st k ins).1.fft_size = st.fft_size ∧
    (cdfProcess st k ins).1.num_bins = st.num_bins ∧
    (cdfProcess st k ins).1.sample_rate = st.sample_rate ∧
    (cdfProcess st k ins).1.phases = st.phases := by
  induction ins with
  | nil => exact fun st => ⟨rfl, rfl, rfl, rfl, rfl, rfl⟩
  | cons x xs ih =>
    intro st
    simp only [cdfProcess]
    obtain ⟨h1, h2, h3, h4, h5, h6⟩ := ih (cdfStep k st x).1
    obtain ⟨g1, g2, g3, g4, g5, g6⟩ := cdfStep_preserves k st x
    exact ⟨h1.trans g1, h2.trans g2, h3.trans g3, h4.trans g4,
      h5.trans g5, h6.trans g6⟩

/-- `process` never touches the configuration fields of the reassignment
engine. -/
lemma reassignProcess_preserves (st : RState) (k : ℝ) (main side : List ℝ) :
    (reassignProcess st k main side).1.hop_divisor = st.hop_divisor ∧
    (reassignProcess st k main side).1.hop_size = st.hop_size := by
  have hfeed : ∀ (l : List (ℝ × ℝ)) (s : RState),
      (l.foldl (reassignFeed k) s).hop_divisor = s.hop_divisor ∧
      (l.foldl (reassignFeed k) s).hop_size = s.hop_size := by
    intro l
    induction l with
    | nil => exact fun s => ⟨rfl, rfl⟩
    | cons x xs ih =>
      intro s
      simp only [List.foldl_cons]
      have hstep : (reassignFeed k s x).hop_divisor = s.hop_divisor ∧
          (reassignFeed k s x).hop_size = s.hop_size := by
        simp only [reassignFeed, reassignHop]
        split_ifs <;> exact ⟨rfl, rfl⟩
      exact ⟨(ih _).1.trans hstep.1, (ih _).2.trans hstep.2⟩
  have hemit : ∀ (n : ℕ) (p : RState × List ℝ),
      ((List.range n).foldl (fun q _ => reassignEmit q) p).1.hop_divisor =
        p.1.hop_divisor ∧
      ((List.range n).foldl (fun q _ => reassignEmit q) p).1.hop_size =
        p.1.hop_size := by
    intro n
    induction n with
    | zero => exact fun p => ⟨rfl, rfl⟩
    | succ m ih =>
      intro p
      rw [List.range_succ, List.foldl_append, List.foldl_cons, List.foldl_nil]
      exact ⟨(ih p).1 ▸ rfl, (ih p).2 ▸ rfl⟩
  exact ⟨((hemit main.length _).1).trans (hfeed _ st).1,
    ((hemit main.length _).2).trans (hfeed _ st).2⟩

/-- A `cdfStep` whose incremented accumulator reaches the hop size fires
the hop: the read cursor advances by `hop_size` and the accumulator loses a
hop. -/
lemma cdfStep_fire (k : ℝ) (st : CDFState) (x : ℝ × ℝ)
    (h : st.hop_size ≤ st.samples_in_buffer + 1) :
    (cdfStep k st x).1.buffer_read_pos =
      (st.buffer_read_pos + st.hop_size) % st.window_size ∧
    (cdfStep k st x).1.samples_in_buffer =
      st.samples_in_buffer + 1 - st.hop_size := by
  simp only [cdfStep]
  split_ifs with h'
  · exact ⟨rfl, rfl⟩

/-- A `cdfStep` whose incremented accumulator stays below the hop size only
counts the sample. -/
lemma cdfStep_nofire (k : ℝ) (st : CDFState) (x : ℝ × ℝ)
    (h : ¬ st.hop_size ≤ st.samples_in_buffer + 1) :
    (cdfStep k st x).1.buffer_read_pos = st.buffer_read_pos ∧
    (cdfStep k st x).1.samples_in_buffer = st.samples_in_buffer + 1 := by
  simp only [cdfStep]
  split_ifs with h'
  · exact ⟨rfl, rfl⟩

/-- Counting lemma for the CDF dispatcher: feeding exactly one hop's worth
of samples to a state with an empty hop accumulator fires exactly one hop,
advancing the read cursor by `hop_size` (mod `window_size`) and emptying
the accumulator again. -/
lemma cdfProcess_one_hop (k : ℝ) :
    ∀ (ins : List (ℝ × ℝ)) (st : CDFState),
    0 < st.hop_size →
    st.samples_in_buffer + ins.length = st.hop_size →
    ins ≠ [] →
    (cdfProcess st k ins).1.buffer_read_pos =
      (st.buffer_read_pos + st.hop_size) % st.window_size ∧
    (cdfProcess st k ins).1.samples_in_buffer = 0 := by
  intro ins
  induction ins with
  | nil => intro st _ _ hne; exact absurd rfl hne
  | cons x xs ih =>
    intro st hpos hlen _
    simp only [List.length_cons] at hlen
    rcases xs with _ | ⟨y, ys⟩
    · have hfire : st.hop_size ≤ st.samples_in_buffer + 1 := by
        simp only [List.length_nil] at hlen
        omega
      have hs := cdfStep_fire k st x hfire
      simp only [cdfProcess]
      refine ⟨hs.1, ?_⟩
      rw [hs.2]
      simp only [List.length_nil] at hlen
      omega
    · have hnof : ¬ st.hop_size ≤ st.samples_in_buffer + 1 := by
        simp only [List.length_cons] at hlen
        omega
      have hs := cdfStep_nofire k st x hnof
      obtain ⟨g1, g2, _, _, _, _⟩ := cdfStep_preserves k st x
      have hrec := ih (cdfStep k st x).1
        (by rw [g2]; exact hpos)
        (by rw [hs.2, g2]; simp only [List.length_cons] at hlen ⊢; omega)
        (by simp)
      have hgoal : (cdfProcess st k (x :: y :: ys)).1 =
          (cdfProcess (cdfStep k st x).1 k (y :: ys)).1 := rfl
      rw [hgoal, hrec.1, hs.1, g2, g1]
      exact ⟨rfl, hrec.2⟩

section DFTValues

/-! Exact values of the DFT kernel at the angles occurring for
`window_padded = 4` (multiples of `π/2`). -/

lemma cosA1 : Real.cos (2 * Real.pi / 4) = 0 := by
  rw [show (2 * Real.pi / 4 : ℝ) = Real.pi / 2 by ring]
  exact Real.cos_pi_div_two

lemma sinA1 : Real.sin (2 * Real.pi / 4) = 1 := by
  rw [show (2 * Real.pi / 4 : ℝ) = Real.pi / 2 by ring]
  exact Real.sin_pi_div_two

lemma cosA2 : Real.cos (2 * Real.pi * 2 / 4) = -1 := by
  rw [show (2 * Real.pi * 2 / 4 : ℝ) = Real.pi by ring]
  exact Real.cos_pi

lemma sinA2 : Real.sin (2 * Real.pi * 2 / 4) = 0 := by
  rw [show (2 * Real.pi * 2 / 4 : ℝ) = Real.pi by ring]
  exact Real.sin_pi

lemma cosA3 : Real.cos (2 * Real.pi * 3 / 4) = 0 := by
  rw [show (2 * Real.pi * 3 / 4 : ℝ) = Real.pi + Real.pi / 2 by ring,
    Real.cos_add]
  simp

lemma sinA3 : Real.sin (2 * Real.pi * 3 / 4) = -1 := by
  rw [show (2 * Real.pi * 3 / 4 : ℝ) = Real.pi + Real.pi / 2 by ring,
    Real.sin_add]
  simp

lemma cosA4 : Real.cos (2 * Real.pi * 2 * 2 / 4) = 1 := by
  rw [show (2 * Real.pi * 2 * 2 / 4 : ℝ) = 2 * Real.pi by ring]
  exact Real.cos_two_pi

lemma sinA4 : Real.sin (2 * Real.pi * 2 * 2 / 4) = 0 := by
  rw [show (2 * Real.pi * 2 * 2 / 4 : ℝ) = 2 * Real.pi by ring]
  exact Real.sin_two_pi

lemma cosA6 : Real.cos (2 * Real.pi * 3 * 2 / 4) = -1 := by
  rw [show (2 * Real.pi * 3 * 2 / 4 : ℝ) = Real.pi + 2 * Real.pi by ring,
    Real.cos_add]
  simp

lemma sinA6 : Real.sin (2 * Real.pi * 3 * 2 / 4) = 0 := by
  rw [show (2 * Real.pi * 3 * 2 / 4 : ℝ) = Real.pi + 2 * Real.pi by ring,
    Real.sin_add]
  simp

/-- Closed form of the 4-point r2c transform (3 bins). -/
lemma r2c_four (a b c d : ℝ) :
    r2c [a, b, c, d] 3 =
      [(a + b + c + d, 0), (a - c, d - b), (a - b + c - d, 0)] := by
  norm_num [r2c, r2cRe, r2cIm, dftAngle, List.range_succ,
    Finset.sum_range_succ, List.getD, List.get?,
    cosA1, sinA1, cosA2, sinA2, cosA3, sinA3, cosA4, sinA4, cosA6, sinA6]
  constructor
  · constructor <;> ring
  · constructor <;> ring

/-- Closed form of the 4-point halfcomplex inverse (3 bins). -/
lemma c2r_four (z0 z1 z2 : ℝ × ℝ) :
    c2r [z0, z1, z2] 4 =
      [z0.1 + 2 * z1.1 + z2.1,
       z0.1 - 2 * z1.2 - z2.1,
       z0.1 - 2 * z1.1 + z2.1,
       z0.1 + 2 * z1.2 - z2.1] := by
  norm_num [c2r, dftAngle, List.range_succ, Finset.sum_range_succ,
    List.getD, List.get?,
    cosA1, sinA1, cosA2, sinA2, cosA3, sinA3, cosA4, sinA4, cosA6, sinA6]
  norm_num [Prod.ext_iff]
  constructor
  · ring
  · constructor
    · ring
    · constructor <;> ring

end DFTValues

lemma cosH1 : Real.cos (2 * Real.pi * (1 / 2) / 3) = 1 / 2 := by
  rw [show (2 * Real.pi * (1 / 2) / 3 : ℝ) = Real.pi / 3 by ring]
  exact Real.cos_pi_div_three

lemma cosH3 : Real.cos (2 * Real.pi * (3 / 2) / 3) = -1 := by
  rw [show (2 * Real.pi * (3 / 2) / 3 : ℝ) = Real.pi by ring]
  exact Real.cos_pi

lemma cosHm1 : Real.cos (-(2 * Real.pi * (1 / 2)) / 3) = 1 / 2 := by
  rw [show (-(2 * Real.pi * (1 / 2)) / 3 : ℝ) = -(Real.pi / 3) by ring,
    Real.cos_neg]
  exact Real.cos_pi_div_three

lemma cosHm3 : Real.cos (-(2 * Real.pi * (3 / 2)) / 3) = -1 := by
  rw [show (-(2 * Real.pi * (3 / 2)) / 3 : ℝ) = -Real.pi by ring,
    Real.cos_neg]
  exact Real.cos_pi

lemma cabs_mk_real (x : ℝ) : Complex.abs ⟨x, 0⟩ = |x| := Complex.abs_ofReal x

lemma interpolate_right_silent {α V : Type} [LinearOrderedField α]
    [FloorRing α] (ops : VOps α V) (left right : List (SPoint α V))
    (phases : List α) (ws k : α)
    (hR : ∀ p ∈ right, ops.vabs p.value = 0)
    (hL : ¬ (∑ i in Finset.range left.length,
      ops.vabs ((left.getD i (dfltP ops)).value)) < tEps) :
    interpolate ops left right phases ws k =
      (left.map fun p => { p with value := ops.vsmul (1 - k) p.value },
       silentPhases ops left phases ws) := by
  have hsumR : ∑ i in Finset.range right.length,
      ops.vabs ((right.getD i (dfltP ops)).value) = 0 :=
    Finset.sum_eq_zero fun i hi => by
      rw [Finset.mem_range] at hi
      rw [List.getD_eq_getElem right _ hi]
      exact hR _ (List.getElem_mem hi)
  simp only [interpolate]
  rw [if_neg (fun h => hL h.1), if_neg hL,
    if_pos (by rw [hsumR]; exact tEps_pos)]

lemma awBuf_b (mb sb ob φ ov : List ℝ) (ip rp : ℕ) :
    awBuf (stR mb sb ip ob rp φ ov)
      (fun n => hannC n ((4 : ℕ) : ℝ)) [0, 0, 1, 1, 0] = [0, 0, 3/4, 0] := by
  norm_num [awBuf, stR, hannC, List.range_succ, List.getD, List.get?,
    cosH1, cosH3, cosHm1, cosHm3]

lemma analyzeWindow_length (st : RState) (input : List ℝ) :
    (analyzeWindow st input).length = st.fft_size := by
  simp [analyzeWindow]

lemma analyzeWindow_value_getD (st : RState) (input : List ℝ) (i : ℕ)
    (hi : i < st.fft_size) :
    ((analyzeWindow st input).getD i (dfltP realVOps)).value =
      (⟨((r2c (awBuf st (fun n => hannC n st.window_samples) input)
          st.fft_size).getD i (0, 0)).1,
        ((r2c (awBuf st (fun n => hannC n st.window_samples) input)
          st.fft_size).getD i (0, 0)).2⟩ : ℂ) := by
  rw [List.getD_eq_getElem _ _ (by simpa [analyzeWindow_length] using hi)]
  simp only [analyzeWindow, List.getElem_map, List.getElem_range]

lemma r2c_0034 : r2c [(0:ℝ), 0, 3/4, 0] 3 =
    [(3/4, 0), (-(3/4), 0), (3/4, 0)] := by
  have := r2c_four 0 0 (3/4) 0
  norm_num at this
  convert this using 2 <;> norm_num

lemma hop_b (ob φ : List ℝ) (rp : ℕ) :
    reassignHop (stR [0, 0, 1, 1, 0] [0, 0, 0, 0, 0] 1 ob rp φ
      [0, 0, 0, 0, 0]) 0 =
      stR [0, 0, 1, 1, 0] [0, 0, 0, 0, 0] 1
        (ob.set ((rp + 3) % ob.length) 0) rp
        (silentPhases realVOps
          (analyzeWindow (stR [0, 0, 1, 1, 0] [0, 0, 0, 0, 0] 1 ob rp φ
            [0, 0, 0, 0, 0]) [0, 0, 1, 1, 0]) φ 1)
        [0, 3/8, 0, 0, 0] := by
  set stX := stR [0, 0, 1, 1, 0] [0, 0, 0, 0, 0] 1 ob rp φ [0, 0, 0, 0, 0]
    with hstX
  have hside : ∀ p ∈ analyzeWindow stX [0, 0, 0, 0, 0],
      realVOps.vabs p.value = 0 := by
    intro p hp
    rw [show realVOps.vabs p.value = Complex.abs p.value from rfl,
      analyzeWindow_value_zero stX (by intro x hx; simpa using hx) p hp]
    exact map_zero Complex.abs
  have hawb : awBuf stX (fun n => hannC n (stX.window_samples : ℝ))
      [0, 0, 1, 1, 0] = [0, 0, 3/4, 0] := awBuf_b _ _ _ _ _ _ _
  have hvals : ∀ i, i < 3 →
      ((analyzeWindow stX [0, 0, 1, 1, 0]).getD i (dfltP realVOps)).value =
        (⟨((r2c [(0:ℝ), 0, 3/4, 0] 3).getD i (0, 0)).1,
          ((r2c [(0:ℝ), 0, 3/4, 0] 3).getD i (0, 0)).2⟩ : ℂ) := by
    intro i hi
    rw [analyzeWindow_value_getD stX _ i hi, hawb,
      show stX.fft_size = 3 from rfl]
  have hL : ¬ (∑ i in Finset.range
      (analyzeWindow stX [0, 0, 1, 1, 0]).length,
      realVOps.vabs (((analyzeWindow stX [0, 0, 1, 1, 0]).getD i
        (dfltP realVOps)).value)) < tEps := by
    rw [analyzeWindow_length]
    show ¬ (∑ i in Finset.range 3, Complex.abs _) < tEps
    rw [Finset.sum_range_succ, Finset.sum_range_succ, Finset.sum_range_succ,
      Finset.sum_range_zero]
    rw [hvals 0 (by omega), hvals 1 (by omega), hvals 2 (by omega)]
    rw [r2c_0034]
    norm_num [cabs_mk_real, tEps]
    rw [abs_of_nonneg (by norm_num : (0:ℝ) ≤ 3/4)]
    norm_num
  have hpairs : ((analyzeWindow stX [0, 0, 1, 1, 0]).map fun p =>
      { p with value := realVOps.vsmul (1 - 0) p.value }).map
        (fun p => (p.value.re, p.value.im)) =
      [((3:ℝ)/4, (0:ℝ)), (-(3/4), 0), (3/4, 0)] := by
    rw [List.map_map]
    apply List.ext_getElem
    · simp [analyzeWindow_length, show stX.fft_size = 3 from rfl]
    · intro i h1 h2
      have hi3 : i < 3 := by
        simpa [analyzeWindow_length, show stX.fft_size = 3 from rfl] using h1
      have hv : ((analyzeWindow stX [0, 0, 1, 1, 0])[i]).value =
          (⟨((r2c [(0:ℝ), 0, 3/4, 0] 3).getD i (0, 0)).1,
            ((r2c [(0:ℝ), 0, 3/4, 0] 3).getD i (0, 0)).2⟩ : ℂ) := by
        rw [← List.getD_eq_getElem _ (dfltP realVOps)
          (by simpa [analyzeWindow_length, show stX.fft_size = 3 from rfl]
            using h1)]
        exact hvals i hi3
      simp only [List.getElem_map, Function.comp]
      rw [show realVOps.vsmul (1 - 0)
          ((analyzeWindow stX [0, 0, 1, 1, 0])[i]).value =
          ((analyzeWindow stX [0, 0, 1, 1, 0])[i]).value by
        simp [realVOps]]
      rw [hv, r2c_0034]
      interval_cases i <;> norm_num [List.getD, List.get?]
  simp only [reassignHop]
  rw [show stX.main_buffer = [0, 0, 1, 1, 0] from rfl,
    show stX.sidechain_buffer = [0, 0, 0, 0, 0] from rfl,
    show stX.phases = φ from rfl,
    show stX.window_size_sec = 1 from rfl,
    interpolate_right_silent realVOps _ _ _ _ _ hside hL]
  simp only [synthesizeWindow, hpairs]
  rw [hstX]
  norm_num [stR, reassignLatency, c2r_four, List.range_succ, List.getD, List.get?,
    RState.mk.injEq]

lemma analyzeWindow_value_zero_of_awBuf (st : RState) (input : List ℝ)
    (h : allZero (awBuf st (fun n => hannC n st.window_samples) input)) :
    ∀ p ∈ analyzeWindow st input, p.value = (0 : ℂ) := by
  intro p hp
  simp only [analyzeWindow, List.mem_map] at hp
  obtain ⟨i, _, hi⟩ := hp
  rw [← hi]
  have := allZeroP_getD (r2c_zero h st.fft_size) i
  simp only [this]
  rfl

lemma r2c_0000 : r2c [(0:ℝ), 0, 0, 0] 3 = [(0, 0), (0, 0), (0, 0)] := by
  have := r2c_four (0:ℝ) 0 0 0
  norm_num at this
  convert this using 2 <;> norm_num

lemma r2c_0340 : r2c [(0:ℝ), 3/4, 3/4, 0] 3 =
    [(3/2, 0), (-(3/4), -(3/4)), (0, 0)] := by
  have := r2c_four (0:ℝ) (3/4) (3/4) 0
  norm_num at this
  convert this using 2 <;> norm_num

lemma mkReassign_concrete : mkReassign 4 1000 2 0 =
    stR [0, 0, 0, 0, 0] [0, 0, 0, 0, 0] 0 [0, 0, 0, 0, 0, 0, 0] 0 [0, 0, 0]
      [0, 0, 0, 0, 0] := by
  simp only [mkReassign, cround, stR]
  norm_num [List.replicate_succ, show ((4:ℤ)).toNat = 4 from rfl]

lemma awBuf_s (mb sb ob φ ov : List ℝ) (ip rp : ℕ) :
    awBuf (stR mb sb ip ob rp φ ov)
      (fun n => hannC n ((4 : ℕ) : ℝ)) [0, 0, 0, 1, 0] = [0, 0, 0, 0] := by
  norm_num [awBuf, stR, hannC, List.range_succ, List.getD, List.get?,
    cosH1, cosH3, cosHm1, cosHm3]

lemma awBuf_c (mb sb ob φ ov : List ℝ) (ip rp : ℕ) :
    awBuf (stR mb sb ip ob rp φ ov)
      (fun n => hannC n ((4 : ℕ) : ℝ)) [0, 1, 1, 1, 0] = [0, 3/4, 3/4, 0] := by
  norm_num [awBuf, stR, hannC, List.range_succ, List.getD, List.get?,
    cosH1, cosH3, cosHm1, cosHm3]

lemma awBuf_d (mb sb ob φ ov : List ℝ) (ip rp : ℕ) :
    awBuf (stR mb sb ip ob rp φ ov)
      (fun n => hannC n ((4 : ℕ) : ℝ)) [1, 1, 1, 1, 0] = [0, 3/4, 3/4, 0] := by
  norm_num [awBuf, stR, hannC, List.range_succ, List.getD, List.get?,
    cosH1, cosH3, cosHm1, cosHm3]

lemma hop_silent (ob φ : List ℝ) (rp : ℕ) :
    reassignHop (stR [0, 0, 0, 1, 0] [0, 0, 0, 0, 0] 1 ob rp φ
      [0, 0, 0, 0, 0]) 0 =
      stR [0, 0, 0, 1, 0] [0, 0, 0, 0, 0] 1
        (ob.set ((rp + 3) % ob.length) 0) rp φ [0, 0, 0, 0, 0] := by
  set stX := stR [0, 0, 0, 1, 0] [0, 0, 0, 0, 0] 1 ob rp φ [0, 0, 0, 0, 0]
    with hstX
  have hawm : awBuf stX (fun n => hannC n (stX.window_samples : ℝ))
      [0, 0, 0, 1, 0] = [0, 0, 0, 0] := awBuf_s _ _ _ _ _ _ _
  have hzm : ∀ p ∈ analyzeWindow stX [0, 0, 0, 1, 0], p.value = (0 : ℂ) := by
    apply analyzeWindow_value_zero_of_awBuf
    rw [hawm]
    intro x hx
    simpa using hx
  have hmain : ∀ p ∈ analyzeWindow stX [0, 0, 0, 1, 0],
      realVOps.vabs p.value = 0 := by
    intro p hp
    rw [show realVOps.vabs p.value = Complex.abs p.value from rfl, hzm p hp]
    exact map_zero Complex.abs
  have hside : ∀ p ∈ analyzeWindow stX [0, 0, 0, 0, 0],
      realVOps.vabs p.value = 0 := by
    intro p hp
    rw [show realVOps.vabs p.value = Complex.abs p.value from rfl,
      analyzeWindow_value_zero stX (by intro x hx; simpa using hx) p hp]
    exact map_zero Complex.abs
  have hpairs : ((analyzeWindow stX [0, 0, 0, 1, 0]).map fun p =>
      { dfltP realVOps with freq := p.freq }).map
        (fun p => (p.value.re, p.value.im)) =
      [((0:ℝ), (0:ℝ)), (0, 0), (0, 0)] := by
    rw [List.map_map]
    apply List.ext_getElem
    · simp [analyzeWindow_length, show stX.fft_size = 3 from rfl]
    · intro i h1 h2
      have hi3 : i < 3 := by
        simpa [analyzeWindow_length, show stX.fft_size = 3 from rfl] using h1
      simp only [List.getElem_map, Function.comp]
      interval_cases i <;>
        norm_num [dfltP, realVOps, List.getD, List.get?]
  simp only [reassignHop]
  rw [show stX.main_buffer = [0, 0, 0, 1, 0] from rfl,
    show stX.sidechain_buffer = [0, 0, 0, 0, 0] from rfl,
    show stX.phases = φ from rfl,
    show stX.window_size_sec = 1 from rfl,
    interpolate_both_silent realVOps _ _ _ _ _ hmain hside]
  simp only [synthesizeWindow, hpairs]
  rw [hstX]
  norm_num [stR, reassignLatency, c2r_four, List.range_succ, List.getD,
    List.get?, RState.mk.injEq]

lemma cabs_00 : Complex.abs ⟨(0:ℝ), (0:ℝ)⟩ = 0 := by
  rw [show (⟨(0:ℝ), (0:ℝ)⟩ : ℂ) = 0 from rfl]
  exact map_zero Complex.abs

lemma hop_c (ob φ : List ℝ) (rp : ℕ) :
    reassignHop (stR [0, 1, 1, 1, 0] [0, 0, 0, 0, 0] 1 ob rp φ
      [0, 3/8, 0, 0, 0]) 0 =
      stR [0, 1, 1, 1, 0] [0, 0, 0, 0, 0] 1
        (ob.set ((rp + 3) % ob.length) 0) rp
        (silentPhases realVOps
          (analyzeWindow (stR [0, 1, 1, 1, 0] [0, 0, 0, 0, 0] 1 ob rp φ
            [0, 3/8, 0, 0, 0]) [0, 1, 1, 1, 0]) φ 1)
        [3/4, 3/8, 0, 0, 0] := by
  set stX := stR [0, 1, 1, 1, 0] [0, 0, 0, 0, 0] 1 ob rp φ [0, 3/8, 0, 0, 0]
    with hstX
  have hside : ∀ p ∈ analyzeWindow stX [0, 0, 0, 0, 0],
      realVOps.vabs p.value = 0 := by
    intro p hp
    rw [show realVOps.vabs p.value = Complex.abs p.value from rfl,
      analyzeWindow_value_zero stX (by intro x hx; simpa using hx) p hp]
    exact map_zero Complex.abs
  have hawb : awBuf stX (fun n => hannC n (stX.window_samples : ℝ))
      [0, 1, 1, 1, 0] = [0, 3/4, 3/4, 0] := awBuf_c _ _ _ _ _ _ _
  have hvals : ∀ i, i < 3 →
      ((analyzeWindow stX [0, 1, 1, 1, 0]).getD i (dfltP realVOps)).value =
        (⟨((r2c [(0:ℝ), 3/4, 3/4, 0] 3).getD i (0, 0)).1,
          ((r2c [(0:ℝ), 3/4, 3/4, 0] 3).getD i (0, 0)).2⟩ : ℂ) := by
    intro i hi
    rw [analyzeWindow_value_getD stX _ i hi, hawb,
      show stX.fft_size = 3 from rfl]
  have hL : ¬ (∑ i in Finset.range
      (analyzeWindow stX [0, 1, 1, 1, 0]).length,
      realVOps.vabs (((analyzeWindow stX [0, 1, 1, 1, 0]).getD i
        (dfltP realVOps)).value)) < tEps := by
    rw [analyzeWindow_length]
    show ¬ (∑ i in Finset.range 3, Complex.abs _) < tEps
    rw [Finset.sum_range_succ, Finset.sum_range_succ, Finset.sum_range_succ,
      Finset.sum_range_zero]
    rw [hvals 0 (by omega), hvals 1 (by omega), hvals 2 (by omega)]
    rw [r2c_0340]
    push_neg
    simp only [List.getD, List.get?, Option.getD]
    have h1 : Complex.abs ⟨((3:ℝ)/2), (0:ℝ)⟩ = 3/2 := by
      rw [cabs_mk_real]; norm_num
    have h2 : (0:ℝ) ≤ Complex.abs ⟨-((3:ℝ)/4), -((3:ℝ)/4)⟩ :=
      AbsoluteValue.nonneg _ _
    rw [h1, cabs_00, tEps]
    linarith
  have hpairs : ((analyzeWindow stX [0, 1, 1, 1, 0]).map fun p =>
      { p with value := realVOps.vsmul (1 - 0) p.value }).map
        (fun p => (p.value.re, p.value.im)) =
      [((3:ℝ)/2, (0:ℝ)), (-(3/4), -(3/4)), (0, 0)] := by
    rw [List.map_map]
    apply List.ext_getElem
    · simp [analyzeWindow_length, show stX.fft_size = 3 from rfl]
    · intro i h1 h2
      have hi3 : i < 3 := by
        simpa [analyzeWindow_length, show stX.fft_size = 3 from rfl] using h1
      have hv : ((analyzeWindow stX [0, 1, 1, 1, 0])[i]).value =
          (⟨((r2c [(0:ℝ), 3/4, 3/4, 0] 3).getD i (0, 0)).1,
            ((r2c [(0:ℝ), 3/4, 3/4, 0] 3).getD i (0, 0)).2⟩ : ℂ) := by
        rw [← List.getD_eq_getElem _ (dfltP realVOps)
          (by simpa [analyzeWindow_length, show stX.fft_size = 3 from rfl]
            using h1)]
        exact hvals i hi3
      simp only [List.getElem_map, Function.comp]
      rw [show realVOps.vsmul (1 - 0)
          ((analyzeWindow stX [0, 1, 1, 1, 0])[i]).value =
          ((analyzeWindow stX [0, 1, 1, 1, 0])[i]).value by
        simp [realVOps]]
      rw [hv, r2c_0340]
      interval_cases i <;> norm_num [List.getD, List.get?]
  simp only [reassignHop]
  rw [show stX.main_buffer = [0, 1, 1, 1, 0] from rfl,
    show stX.sidechain_buffer = [0, 0, 0, 0, 0] from rfl,
    show stX.phases = φ from rfl,
    show stX.window_size_sec = 1 from rfl,
    interpolate_right_silent realVOps _ _ _ _ _ hside hL]
  simp only [synthesizeWindow, hpairs]
  rw [hstX]
  norm_num [stR, reassignLatency, c2r_four, List.range_succ, List.getD,
    List.get?, RState.mk.injEq]

lemma hop_d_aux (ob φ : List ℝ) (rp : ℕ) :
    reassignHop (stR [1, 1, 1, 1, 0] [0, 0, 0, 0, 0] 1 ob rp φ
      [3/4, 3/8, 0, 0, 0]) 0 =
      stR [1, 1, 1, 1, 0] [0, 0, 0, 0, 0] 1
        (ob.set ((rp + 3) % ob.length) (3/4)) rp
        (silentPhases realVOps
          (analyzeWindow (stR [1, 1, 1, 1, 0] [0, 0, 0, 0, 0] 1 ob rp φ
            [3/4, 3/8, 0, 0, 0]) [1, 1, 1, 1, 0]) φ 1)
        [3/4, 3/8, 0, 0, 0] := by
  set stX := stR [1, 1, 1, 1, 0] [0, 0, 0, 0, 0] 1 ob rp φ [3/4, 3/8, 0, 0, 0]
    with hstX
  have hside : ∀ p ∈ analyzeWindow stX [0, 0, 0, 0, 0],
      realVOps.vabs p.value = 0 := by
    intro p hp
    rw [show realVOps.vabs p.value = Complex.abs p.value from rfl,
      analyzeWindow_value_zero stX (by intro x hx; simpa using hx) p hp]
    exact map_zero Complex.abs
  have hawb : awBuf stX (fun n => hannC n (stX.window_samples : ℝ))
      [1, 1, 1, 1, 0] = [0, 3/4, 3/4, 0] := awBuf_d _ _ _ _ _ _ _
  have hvals : ∀ i, i < 3 →
      ((analyzeWindow stX [1, 1, 1, 1, 0]).getD i (dfltP realVOps)).value =
        (⟨((r2c [(0:ℝ), 3/4, 3/4, 0] 3).getD i (0, 0)).1,
          ((r2c [(0:ℝ), 3/4, 3/4, 0] 3).getD i (0, 0)).2⟩ : ℂ) := by
    intro i hi
    rw [analyzeWindow_value_getD stX _ i hi, hawb,
      show stX.fft_size = 3 from rfl]
  have hL : ¬ (∑ i in Finset.range
      (analyzeWindow stX [1, 1, 1, 1, 0]).length,
      realVOps.vabs (((analyzeWindow stX [1, 1, 1, 1, 0]).getD i
        (dfltP realVOps)).value)) < tEps := by
    rw [analyzeWindow_length]
    show ¬ (∑ i in Finset.range 3, Complex.abs _) < tEps
    rw [Finset.sum_range_succ, Finset.sum_range_succ, Finset.sum_range_succ,
      Finset.sum_range_zero]
    rw [hvals 0 (by omega), hvals 1 (by omega), hvals 2 (by omega)]
    rw [r2c_0340]
    push_neg
    simp only [List.getD, List.get?, Option.getD]
    have h1 : Complex.abs ⟨((3:ℝ)/2), (0:ℝ)⟩ = 3/2 := by
      rw [cabs_mk_real]; norm_num
    have h2 : (0:ℝ) ≤ Complex.abs ⟨-((3:ℝ)/4), -((3:ℝ)/4)⟩ :=
      AbsoluteValue.nonneg _ _
    rw [h1, cabs_00, tEps]
    linarith
  have hpairs : ((analyzeWindow stX [1, 1, 1, 1, 0]).map fun p =>
      { p with value := realVOps.vsmul (1 - 0) p.value }).map
        (fun p => (p.value.re, p.value.im)) =
      [((3:ℝ)/2, (0:ℝ)), (-(3/4), -(3/4)), (0, 0)] := by
    rw [List.map_map]
    apply List.ext_getElem
    · simp [analyzeWindow_length, show stX.fft_size = 3 from rfl]
    · intro i h1 h2
      have hi3 : i < 3 := by
        simpa [analyzeWindow_length, show stX.fft_size = 3 from rfl] using h1
      have hv : ((analyzeWindow stX [1, 1, 1, 1, 0])[i]).value =
          (⟨((r2c [(0:ℝ), 3/4, 3/4, 0] 3).getD i (0, 0)).1,
            ((r2c [(0:ℝ), 3/4, 3/4, 0] 3).getD i (0, 0)).2⟩ : ℂ) := by
        rw [← List.getD_eq_getElem _ (dfltP realVOps)
          (by simpa [analyzeWindow_length, show stX.fft_size = 3 from rfl]
            using h1)]
        exact hvals i hi3
      simp only [List.getElem_map, Function.comp]
      rw [show realVOps.vsmul (1 - 0)
          ((analyzeWindow stX [1, 1, 1, 1, 0])[i]).value =
          ((analyzeWindow stX [1, 1, 1, 1, 0])[i]).value by
        simp [realVOps]]
      rw [hv, r2c_0340]
      interval_cases i <;> norm_num [List.getD, List.get?]
  simp only [reassignHop]
  rw [show stX.main_buffer = [1, 1, 1, 1, 0] from rfl,
    show stX.sidechain_buffer = [0, 0, 0, 0, 0] from rfl,
    show stX.phases = φ from rfl,
    show stX.window_size_sec = 1 from rfl,
    interpolate_right_silent realVOps _ _ _ _ _ hside hL]
  simp only [synthesizeWindow, hpairs]
  rw [hstX]
  norm_num [stR, reassignLatency, c2r_four, List.range_succ, List.getD,
    List.get?, RState.mk.injEq]

lemma reassignHop_hop_size (st : RState) (k : ℝ) :
    (reassignHop st k).hop_size = st.hop_size := rfl

lemma feed_s (ob φ : List ℝ) (rp : ℕ) :
    reassignFeed 0 (stR [0, 0, 0, 0, 0] [0, 0, 0, 0, 0] 0 ob rp φ
      [0, 0, 0, 0, 0]) (1, 0) =
      stR [0, 0, 1, 0, 0] [0, 0, 0, 0, 0] 0
        (ob.set ((rp + 3) % ob.length) 0) rp φ [0, 0, 0, 0, 0] := by
  have h1 : reassignFeed 0 (stR [0, 0, 0, 0, 0] [0, 0, 0, 0, 0] 0 ob rp φ
      [0, 0, 0, 0, 0]) (1, 0) =
      { reassignHop (stR [0, 0, 0, 1, 0] [0, 0, 0, 0, 0] 1 ob rp φ
          [0, 0, 0, 0, 0]) 0 with
        main_buffer := (reassignHop (stR [0, 0, 0, 1, 0] [0, 0, 0, 0, 0] 1
          ob rp φ [0, 0, 0, 0, 0]) 0).main_buffer.drop 1 ++ [0],
        sidechain_buffer := (reassignHop (stR [0, 0, 0, 1, 0] [0, 0, 0, 0, 0]
          1 ob rp φ [0, 0, 0, 0, 0]) 0).sidechain_buffer.drop 1 ++ [0],
        input_write_pos := 0 } := by
    simp only [reassignFeed, stR, reassignHop_hop_size]
    norm_num [List.set]
  rw [h1, hop_silent]
  norm_num [stR, RState.mk.injEq]

lemma feed_b (ob φ : List ℝ) (rp : ℕ) :
    reassignFeed 0 (stR [0, 0, 1, 0, 0] [0, 0, 0, 0, 0] 0 ob rp φ
      [0, 0, 0, 0, 0]) (1, 0) =
      stR [0, 1, 1, 0, 0] [0, 0, 0, 0, 0] 0
        (ob.set ((rp + 3) % ob.length) 0) rp
        (silentPhases realVOps
          (analyzeWindow (stR [0, 0, 1, 1, 0] [0, 0, 0, 0, 0] 1 ob rp φ
            [0, 0, 0, 0, 0]) [0, 0, 1, 1, 0]) φ 1)
        [0, 3/8, 0, 0, 0] := by
  have h1 : reassignFeed 0 (stR [0, 0, 1, 0, 0] [0, 0, 0, 0, 0] 0 ob rp φ
      [0, 0, 0, 0, 0]) (1, 0) =
      { reassignHop (stR [0, 0, 1, 1, 0] [0, 0, 0, 0, 0] 1 ob rp φ
          [0, 0, 0, 0, 0]) 0 with
        main_buffer := (reassignHop (stR [0, 0, 1, 1, 0] [0, 0, 0, 0, 0] 1
          ob rp φ [0, 0, 0, 0, 0]) 0).main_buffer.drop 1 ++ [0],
        sidechain_buffer := (reassignHop (stR [0, 0, 1, 1, 0] [0, 0, 0, 0, 0]
          1 ob rp φ [0, 0, 0, 0, 0]) 0).sidechain_buffer.drop 1 ++ [0],
        input_write_pos := 0 } := by
    simp only [reassignFeed, stR, reassignHop_hop_size]
    norm_num [List.set]
  rw [h1, hop_b]
  norm_num [stR, RState.mk.injEq]

lemma feed_c (ob φ : List ℝ) (rp : ℕ) :
    reassignFeed 0 (stR [0, 1, 1, 0, 0] [0, 0, 0, 0, 0] 0 ob rp φ
      [0, 3/8, 0, 0, 0]) (1, 0) =
      stR [1, 1, 1, 0, 0] [0, 0, 0, 0, 0] 0
        (ob.set ((rp + 3) % ob.length) 0) rp
        (silentPhases realVOps
          (analyzeWindow (stR [0, 1, 1, 1, 0] [0, 0, 0, 0, 0] 1 ob rp φ
            [0, 3/8, 0, 0, 0]) [0, 1, 1, 1, 0]) φ 1)
        [3/4, 3/8, 0, 0, 0] := by
  have h1 : reassignFeed 0 (stR [0, 1, 1, 0, 0] [0, 0, 0, 0, 0] 0 ob rp φ
      [0, 3/8, 0, 0, 0]) (1, 0) =
      { reassignHop (stR [0, 1, 1, 1, 0] [0, 0, 0, 0, 0] 1 ob rp φ
          [0, 3/8, 0, 0, 0]) 0 with
        main_buffer := (reassignHop (stR [0, 1, 1, 1, 0] [0, 0, 0, 0, 0] 1
          ob rp φ [0, 3/8, 0, 0, 0]) 0).main_buffer.drop 1 ++ [0],
        sidechain_buffer := (reassignHop (stR [0, 1, 1, 1, 0] [0, 0, 0, 0, 0]
          1 ob rp φ [0, 3/8, 0, 0, 0]) 0).sidechain_buffer.drop 1 ++ [0],
        input_write_pos := 0 } := by
    simp only [reassignFeed, stR, reassignHop_hop_size]
    norm_num [List.set]
  rw [h1, hop_c]
  norm_num [stR, RState.mk.injEq]

lemma feed_d (ob φ : List ℝ) (rp : ℕ) :
    reassignFeed 0 (stR [1, 1, 1, 0, 0] [0, 0, 0, 0, 0] 0 ob rp φ
      [3/4, 3/8, 0, 0, 0]) (1, 0) =
      stR [1, 1, 1, 0, 0] [0, 0, 0, 0, 0] 0
        (ob.set ((rp + 3) % ob.length) (3/4)) rp
        (silentPhases realVOps
          (analyzeWindow (stR [1, 1, 1, 1, 0] [0, 0, 0, 0, 0] 1 ob rp φ
            [3/4, 3/8, 0, 0, 0]) [1, 1, 1, 1, 0]) φ 1)
        [3/4, 3/8, 0, 0, 0] := by
  have h1 : reassignFeed 0 (stR [1, 1, 1, 0, 0] [0, 0, 0, 0, 0] 0 ob rp φ
      [3/4, 3/8, 0, 0, 0]) (1, 0) =
      { reassignHop (stR [1, 1, 1, 1, 0] [0, 0, 0, 0, 0] 1 ob rp φ
          [3/4, 3/8, 0, 0, 0]) 0 with
        main_buffer := (reassignHop (stR [1, 1, 1, 1, 0] [0, 0, 0, 0, 0] 1
          ob rp φ [3/4, 3/8, 0, 0, 0]) 0).main_buffer.drop 1 ++ [0],
        sidechain_buffer := (reassignHop (stR [1, 1, 1, 1, 0] [0, 0, 0, 0, 0]
          1 ob rp φ [3/4, 3/8, 0, 0, 0]) 0).sidechain_buffer.drop 1 ++ [0],
        input_write_pos := 0 } := by
    simp only [reassignFeed, stR, reassignHop_hop_size]
    norm_num [List.set]
  rw [h1, hop_d_aux]
  norm_num [stR, RState.mk.injEq]

lemma runA : (reassignProcess (mkReassign 4 1000 2 0) 0 [1, 1, 1, 1]
    [0, 0, 0, 0]).2 = [0, 0, 0, 3/4] := by
  rw [mkReassign_concrete]
  simp only [reassignProcess]
  rw [show ([1, 1, 1, 1] : List ℝ).zip ([0, 0, 0, 0] : List ℝ) =
    [(1, 0), (1, 0), (1, 0), (1, 0)] from rfl]
  rw [List.foldl_cons, feed_s, List.foldl_cons, feed_b, List.foldl_cons,
    feed_c, List.foldl_cons, feed_d, List.foldl_nil]
  norm_num [List.set]
  simp only [List.range_succ, List.range_zero, List.foldl_append,
    List.foldl_cons, List.foldl_nil, reassignEmit, stR]
  norm_num [List.getD, List.get?, List.set]

lemma runB1 : reassignProcess (mkReassign 4 1000 2 0) 0 [1] [0] =
    (stR [0, 0, 1, 0, 0] [0, 0, 0, 0, 0] 0 [0, 0, 0, 0, 0, 0, 0] 1 [0, 0, 0]
      [0, 0, 0, 0, 0], [0]) := by
  rw [mkReassign_concrete]
  simp only [reassignProcess]
  rw [show ([1] : List ℝ).zip ([0] : List ℝ) = [(1, 0)] from rfl]
  rw [List.foldl_cons, feed_s, List.foldl_nil]
  norm_num [List.set]
  simp only [List.range_succ, List.range_zero, List.foldl_append,
    List.foldl_cons, List.foldl_nil, reassignEmit, stR]
  norm_num [List.getD, List.get?, List.set, RState.mk.injEq]

lemma runB2 : (reassignProcess (stR [0, 0, 1, 0, 0] [0, 0, 0, 0, 0] 0
    [0, 0, 0, 0, 0, 0, 0] 1 [0, 0, 0] [0, 0, 0, 0, 0]) 0 [1, 1, 1]
    [0, 0, 0]).2 = [0, 0, 0] := by
  simp only [reassignProcess]
  rw [show ([1, 1, 1] : List ℝ).zip ([0, 0, 0] : List ℝ) =
    [(1, 0), (1, 0), (1, 0)] from rfl]
  rw [List.foldl_cons, feed_b, List.foldl_cons, feed_c, List.foldl_cons,
    feed_d, List.foldl_nil]
  norm_num [List.set]
  simp only [List.range_succ, List.range_zero, List.foldl_append,
    List.foldl_cons, List.foldl_nil, reassignEmit, stR]
  norm_num [List.getD, List.get?, List.set]

lemma ctm_c4 : computeTransportMap 3 [(0:ℚ), 0, 0] [0, 0, 1] = [0, 0, 0] := by
  norm_num [computeTransportMap, lowerBoundGo, cdfAt, magSum, tEps,
    List.range_succ, Finset.sum_range_succ, List.getD, List.get?]

lemma ctm_c6 : computeTransportMap 2 [(1:ℚ), 0] [0, 0] = [1, 1] := by
  norm_num [computeTransportMap, lowerBoundGo, cdfAt, magSum, tEps,
    List.range_succ, Finset.sum_range_succ, List.getD, List.get?]

end AudioTransport

namespace AudioTransport

lemma ZeroCDF_mkCDF (sr ms : ℚ) (hd fm : ℕ) : ZeroCDF (mkCDF sr ms hd fm) := by
  refine ⟨?_, ?_, ?_⟩ <;> simp only [mkCDF] <;> exact allZero_replicate _

lemma ZeroR_mkReassign (sr ms : ℚ) (hd fp : ℕ) :
    ZeroR (mkReassign sr ms hd fp) := by
  refine ⟨?_, ?_, ?_, ?_⟩ <;> simp only [mkReassign] <;>
    exact allZero_replicate _

/-- C1: `getLatencySamples()` is `window_size/2` for the CDF engine and
`(2·hop_divisor − 1)·hop_size` for the reassignment engine; the CDF engine
constructed with `(44100, 100, 4, 2)` reports `2205`; and the reported
latency of either engine is unchanged by `process()` calls. -/
theorem C1_latency_report :
    (∀ st : CDFState, cdfLatency st = st.window_size / 2) ∧
    (∀ st : RState,
      reassignLatency st = (2 * st.hop_divisor - 1) * st.hop_size) ∧
    cdfLatency (mkCDF 44100 100 4 2) = 2205 ∧
    (∀ (st : CDFState) (k : ℝ) (ins : List (ℝ × ℝ)),
      cdfLatency (cdfProcess st k ins).1 = cdfLatency st) ∧
    (∀ (st : RState) (k : ℝ) (main side : List ℝ),
      reassignLatency (reassignProcess st k main side).1 =
        reassignLatency st) := by
  refine ⟨fun st => rfl, fun st => rfl, ?_, ?_, ?_⟩
  · simp only [cdfLatency, mkCDF]
    norm_num [show ((4410 : ℤ)).toNat = 4410 from rfl]
  · intro st k ins
    simp only [cdfLatency, (cdfProcess_preserves k ins st).1]
  · intro st k main side
    simp only [reassignLatency, (reassignProcess_preserves st k main side).1,
      (reassignProcess_preserves st k main side).2]

/-- C3: a freshly constructed engine (any configuration) fed only
zero-valued samples on both streams produces exactly zero output samples,
for every `k` and every buffer length, on both engines, and again on a
second consecutive zero call. -/
theorem C3_silence_in_silence_out (sr ms : ℚ) (hd fm : ℕ) (k : ℝ)
    (n m : ℕ) :
    allZero (cdfProcess (mkCDF sr ms hd fm) k
      (List.replicate n ((0 : ℝ), (0 : ℝ)))).2 ∧
    allZero (cdfProcess
      (cdfProcess (mkCDF sr ms hd fm) k
        (List.replicate n ((0 : ℝ), (0 : ℝ)))).1 k
      (List.replicate m ((0 : ℝ), (0 : ℝ)))).2 ∧
    (reassignProcess (mkReassign sr ms hd fm) k (List.replicate n 0)
      (List.replicate n 0)).2 = List.replicate n 0 ∧
    (reassignProcess
      (reassignProcess (mkReassign sr ms hd fm) k (List.replicate n 0)
        (List.replicate n 0)).1 k
      (List.replicate m 0) (List.replicate m 0)).2 =
      List.replicate m 0 := by
  have hz : ∀ j : ℕ, ∀ x ∈ List.replicate j ((0 : ℝ), (0 : ℝ)),
      x = ((0 : ℝ), (0 : ℝ)) := fun j => fun x hx =>
    List.eq_of_mem_replicate hx
  have h1 := cdfProcess_zero (ZeroCDF_mkCDF sr ms hd fm) k
    (List.replicate n ((0 : ℝ), (0 : ℝ))) (hz n)
  have h2 := cdfProcess_zero h1.1 k
    (List.replicate m ((0 : ℝ), (0 : ℝ))) (hz m)
  have h3 := reassignProcess_zero (ZeroR_mkReassign sr ms hd fm) k
    (List.replicate n 0) (List.replicate n 0) (allZero_replicate n)
    (allZero_replicate n)
  have h4 := reassignProcess_zero h3.1 k
    (List.replicate m 0) (List.replicate m 0) (allZero_replicate m)
    (allZero_replicate m)
  refine ⟨h1.2, h2.2, ?_, ?_⟩
  · rw [h3.2, List.length_replicate]
  · rw [h4.2, List.length_replicate]

/-- C7: `group_spectrum` always returns a non-empty mass list whose
`[left_bin, right_bin)` ranges partition `[0, N)` contiguously; in the
silence-degenerate case it is the single mass `[0, N)` centred at `N/2`
with weight exactly `1`, and otherwise the masses sum to exactly `1`. -/
theorem C7_group_spectrum_invariants {α V : Type} [LinearOrderedField α]
    [FloorRing α] (ops : VOps α V) (spectrum : List (SPoint α V)) :
    group_spectrum ops spectrum ≠ [] ∧
    coversRange 0 spectrum.length (group_spectrum ops spectrum) ∧
    ((∑ j in Finset.range spectrum.length, binAbs ops spectrum j) < tEps →
      group_spectrum ops spectrum =
        [⟨0, spectrum.length / 2, spectrum.length, 1⟩]) ∧
    (¬ (∑ j in Finset.range spectrum.length, binAbs ops spectrum j) < tEps →
      ((group_spectrum ops spectrum).map (fun m => m.mass)).sum = 1) :=
  group_spectrum_invariants ops spectrum

/-- C8 (amended): the CDF engine's phase vector is never advanced: it is
carried through every `process()` call unchanged (the `phases_` member is
dead state). -/
theorem C8_phases_never_advanced (k : ℝ) (ins : List (ℝ × ℝ))
    (st : CDFState) :
    (cdfProcess st k ins).1.phases = st.phases :=
  (cdfProcess_preserves k ins st).2.2.2.2.2

/-- C9 (amended): the CDF engine's per-sample dispatcher is block-size
independent: processing `xs ++ ys` in one call equals processing `xs` then
`ys` in two calls, with identical final state and concatenated outputs (no
latency discard needed).  (The reassignment engine is not: see the
counterexample.) -/
theorem C9_cdf_split_invariance (k : ℝ) (xs ys : List (ℝ × ℝ))
    (st : CDFState) :
    (cdfProcess st k (xs ++ ys)).1 =
      (cdfProcess (cdfProcess st k xs).1 k ys).1 ∧
    (cdfProcess st k (xs ++ ys)).2 =
      (cdfProcess st k xs).2 ++ (cdfProcess (cdfProcess st k xs).1 k ys).2 :=
  cdfProcess_append k xs ys st

/-- C10: `place_mass` keeps the output spectrum's length and writes only
bins hit by an in-range shifted source index: every output bin `j` that no
source bin of `[left_bin, right_bin)` reaches under the shift
`center_bin − mass.center_bin` (in particular any bin a dropped
out-of-range contribution would have wrapped to) is left untouched. -/
theorem C10_place_mass_bounds {α V : Type} [LinearOrderedField α]
    [FloorRing α] (ops : VOps α V) (mass : SpectralMass α) (center_bin : ℤ)
    (scale interpolated_freq center_phase : α)
    (input output : List (SPoint α V)) (next_phase : α)
    (phases amplitudes : List α) :
    (place_mass ops mass center_bin scale interpolated_freq center_phase
      input output next_phase phases amplitudes).1.length = output.length ∧
    (∀ j : ℕ,
      (∀ i : ℕ, mass.left_bin ≤ i → i < mass.right_bin →
        (i : ℤ) + center_bin - (mass.center_bin : ℤ) ≠ (j : ℤ)) →
      (place_mass ops mass center_bin scale interpolated_freq center_phase
        input output next_phase phases amplitudes).1.get? j =
        output.get? j) :=
  place_mass_untouched ops mass center_bin scale interpolated_freq
    center_phase input output next_phase phases amplitudes

lemma clog_2_4 : Nat.clog 2 4 = 2 := by
  have h1 : Nat.clog 2 4 ≤ 2 :=
    (Nat.le_pow_iff_clog_le (by norm_num)).1 (by norm_num)
  have h2 : ¬ Nat.clog 2 4 ≤ 1 := fun hle =>
    absurd ((Nat.le_pow_iff_clog_le (by norm_num)).2 hle) (by norm_num)
  omega

/-- C8 (counterexample): on the CDF engine `(4, 1000, 4, 1)` a full hop
of input is processed (the read cursor moves), yet the carried phase vector
is returned unchanged, while the spec's per-bin advance
`freq·window_size/2` would have changed it. -/
theorem C8_no_phase_advance_counterexample :
    (cdfProcess (mkCDF 4 1000 4 1) (1/2) [((0 : ℝ), 0)]).1.phases =
      (mkCDF 4 1000 4 1).phases ∧
    (cdfProcess (mkCDF 4 1000 4 1) (1/2) [((0 : ℝ), 0)]).1.buffer_read_pos ≠
      (mkCDF 4 1000 4 1).buffer_read_pos ∧
    specAdvancePhases (mkCDF 4 1000 4 1) ≠ (mkCDF 4 1000 4 1).phases := by
  have hw : (mkCDF 4 1000 4 1).window_size = 4 := by
    simp only [mkCDF]
    norm_num [show ((4 : ℤ)).toNat = 4 from rfl]
  have hh : (mkCDF 4 1000 4 1).hop_size = 1 := by
    simp only [mkCDF]
    norm_num [show ((4 : ℤ)).toNat = 4 from rfl]
  have hs : (mkCDF 4 1000 4 1).samples_in_buffer = 0 := rfl
  have hr : (mkCDF 4 1000 4 1).buffer_read_pos = 0 := rfl
  have hf : (mkCDF 4 1000 4 1).fft_size = 4 := by
    simp only [mkCDF]
    norm_num [show ((4 : ℤ)).toNat = 4 from rfl, clog_2_4]
  have hsr : (mkCDF 4 1000 4 1).sample_rate = 4 := rfl
  have hq : (mkCDF 4 1000 4 1).phases.length = 3 := by
    simp only [mkCDF, List.length_replicate]
    norm_num [show ((4 : ℤ)).toNat = 4 from rfl, clog_2_4]
  refine ⟨(cdfProcess_preserves _ _ _).2.2.2.2.2, ?_, ?_⟩
  · have h1 := cdfProcess_one_hop (1/2) [((0 : ℝ), 0)] (mkCDF 4 1000 4 1)
      (by rw [hh]; norm_num)
      (by rw [hs, hh]; rfl)
      (by simp)
    rw [h1.1, hr, hh, hw]
    norm_num
  · intro h
    have h2 := congrArg (fun l => l.getD 1 0) h
    simp only [specAdvancePhases] at h2
    rw [List.getD_eq_getElem _ _ (by
        rw [List.length_map, List.length_range]; omega),
      List.getElem_map, List.getElem_range] at h2
    have h3 : (mkCDF 4 1000 4 1).phases.getD 1 0 = 0 :=
      allZero_getD (by simp only [mkCDF]; exact allZero_replicate _) 1
    rw [h3] at h2
    have h4 : (0 : ℝ) < nominalFreqHz (mkCDF 4 1000 4 1) 1 *
        (((mkCDF 4 1000 4 1).window_size : ℝ) /
          ((mkCDF 4 1000 4 1).sample_rate : ℝ)) / 2 := by
      rw [nominalFreqHz, hf, hw]
      rw [show ((mkCDF 4 1000 4 1).sample_rate : ℝ) = 4 from by
        rw [hsr]; norm_num]
      norm_num
    linarith


lemma cdfAt_replicate_zero {α : Type} [LinearOrderedField α] (N : ℕ)
    (s : α) (i : ℕ) : cdfAt (List.replicate N (0 : α)) s i = 0 :=
  Finset.sum_eq_zero fun j _ => by
    rw [allZero_getD (allZero_replicate N) j, zero_div]

/-- C4 (amended): with a silent main spectrum the CDF builder is still
invoked and (for a nonnegative sidechain spectrum) returns the all-zero
transport map: there is no short-circuit. -/
theorem C4_builder_runs_on_silence {α : Type} [LinearOrderedField α]
    [FloorRing α] (N : ℕ) (magY : List α) (hY : ∀ y ∈ magY, 0 ≤ y) :
    computeTransportMap N (List.replicate N (0 : α)) magY =
      List.replicate N 0 := by
  apply List.ext_getElem
  · simp [computeTransportMap]
  · intro i h1 h2
    have hi : i < N := by simpa [computeTransportMap] using h1
    have h := computeTransportMap_entry N (List.replicate N (0 : α)) magY
      (fun x hx => le_of_eq (List.eq_of_mem_replicate hx).symm) hY i hi
    obtain ⟨h0, _, hbelow, _⟩ := h
    have ht : (computeTransportMap N (List.replicate N (0 : α)) magY).getD
        i 0 = 0 := by
      by_contra hne
      have hpos : 0 < (computeTransportMap N (List.replicate N (0 : α))
          magY).getD i 0 := lt_of_le_of_ne h0 (Ne.symm hne)
      have hb := hbelow 0 (by exact_mod_cast hpos) (by omega)
      rw [cdfAt_replicate_zero] at hb
      have hsY : (0 : α) < max (magSum N magY) tEps :=
        lt_of_lt_of_le tEps_pos (le_max_right _ _)
      have hge : (0 : α) ≤ cdfAt magY (max (magSum N magY) tEps) 0 := by
        rw [cdfAt, Finset.sum_range_one]
        exact div_nonneg (getD_nonneg hY 0) (le_of_lt hsY)
      have htE : (0 : α) < tEps := tEps_pos
      linarith
    rw [← List.getD_eq_getElem _ 0 h1, ht, List.getElem_replicate]

/-- C4 (witness): the builder's output for the silent main spectrum
`[0,0,0]` against sidechain `[0,0,1]`. -/
theorem C4_builder_runs_on_silence_witness :
    computeTransportMap 3 (List.replicate 3 (0 : ℚ)) [0, 0, 1] =
      List.replicate 3 0 :=
  C4_builder_runs_on_silence 3 [0, 0, 1] (by
    intro y hy
    simp only [List.mem_cons, List.not_mem_nil, or_false] at hy
    rcases hy with rfl | rfl | rfl <;> norm_num)

lemma isp_c4 : (interpolateSpectrum 3 [(0:ℚ), 0, 0] [0, 0, 0] [0, 0, 1]
    [0, 0, 0] (1/2)).1 = [0, 0, 0] := by
  have hc0 : ⌈(0 : ℚ)⌉ = 0 := by norm_num
  have hc1 : ⌈(1/2 : ℚ)⌉ = 1 := by norm_num [Int.ceil_eq_iff]
  have hc2 : ⌈(1 : ℚ)⌉ = 1 := by norm_num
  norm_num [interpolateSpectrum, ctm_c4, depositStep, List.range_succ,
    List.getD, List.get?, List.set, tEps, hc0, hc1, hc2,
    List.replicate_succ]

/-- C4 (counterexample): with a numerically silent main spectrum the CDF
interpolator does not short-circuit to the spec's `k`-scaled sidechain:
the engine returns all-zero magnitudes where the spec's §4.D short-circuit
returns `k·|Y|`. -/
theorem C4_no_short_circuit_counterexample :
    ¬ ((interpolateSpectrum 3 [(0:ℚ), 0, 0] [0, 0, 0] [0, 0, 1] [0, 0, 0]
        (1/2)).1 = cdfSilentScaled [(0:ℚ), 0, 1] (1/2)) := by
  rw [isp_c4]
  norm_num [cdfSilentScaled]

/-- C5 (amended): for non-empty mass lists with nonnegative masses summing
to `1`, the greedy matcher's triples are nonnegative (not necessarily
positive) and sum to `1`. -/
theorem C5_matcher_mass_conservation {α : Type} [LinearOrderedField α]
    [FloorRing α] (left right : List (SpectralMass α))
    (hLne : left ≠ []) (hRne : right ≠ [])
    (hL : ∀ m ∈ left, 0 ≤ m.mass) (hR : ∀ m ∈ right, 0 ≤ m.mass)
    (hLsum : (left.map (fun m => m.mass)).sum = 1)
    (hRsum : (right.map (fun m => m.mass)).sum = 1) :
    (∀ t ∈ transport_matrix left right, 0 ≤ t.2.2) ∧
      ((transport_matrix left right).map (fun t => t.2.2)).sum = 1 :=
  transport_matrix_thirds left right hLne hRne hL hR hLsum hRsum

/-- C5 (witness): the matcher on the two-mass list `[1/2, 1/2]` against
itself: all transported masses nonnegative and summing to `1`. -/
theorem C5_matcher_mass_conservation_witness :
    (∀ t ∈ transport_matrix
        [(⟨0, 0, 1, 1/2⟩ : SpectralMass ℚ), ⟨1, 1, 2, 1/2⟩]
        [(⟨0, 0, 1, 1/2⟩ : SpectralMass ℚ), ⟨1, 1, 2, 1/2⟩], 0 ≤ t.2.2) ∧
      ((transport_matrix
        [(⟨0, 0, 1, 1/2⟩ : SpectralMass ℚ), ⟨1, 1, 2, 1/2⟩]
        [(⟨0, 0, 1, 1/2⟩ : SpectralMass ℚ), ⟨1, 1, 2, 1/2⟩]).map
          (fun t => t.2.2)).sum = 1 :=
  C5_matcher_mass_conservation _ _ (by simp) (by simp)
    (by
      intro m hm
      simp only [List.mem_cons, List.not_mem_nil, or_false] at hm
      rcases hm with rfl | rfl <;> norm_num)
    (by
      intro m hm
      simp only [List.mem_cons, List.not_mem_nil, or_false] at hm
      rcases hm with rfl | rfl <;> norm_num)
    (by norm_num) (by norm_num)

/-- C5 (counterexample): on a tie (`min(m_L, m_R)` exhausting both sides at
once) the matcher emits a zero-mass triple, refuting "every
transported_mass is a positive real". -/
theorem C5_zero_mass_triple_counterexample :
    ¬ (∀ t ∈ transport_matrix
        [(⟨0, 0, 1, 1/2⟩ : SpectralMass ℚ), ⟨1, 1, 2, 1/2⟩]
        [(⟨0, 0, 1, 1/2⟩ : SpectralMass ℚ), ⟨1, 1, 2, 1/2⟩],
        0 < t.2.2) := by
  have he : transport_matrix
      [(⟨0, 0, 1, 1/2⟩ : SpectralMass ℚ), ⟨1, 1, 2, 1/2⟩]
      [(⟨0, 0, 1, 1/2⟩ : SpectralMass ℚ), ⟨1, 1, 2, 1/2⟩] =
      [(0, 0, (1:ℚ)/2), (0, 1, 0), (1, 1, 1/2)] := by
    norm_num [transport_matrix, transportGo, List.getD, List.get?]
  intro h
  have := h (0, 1, 0) (by rw [he]; simp)
  norm_num at this

/-- C6 (amended): each `T[i]` of the CDF builder lies in `[0, N)`, every
index below `T[i]` fails the CDF test, and either `T[i]` passes the test
(`F_Y[T[i]] ≥ F_X[i] − ε`, so it is the smallest passing index) or
`T[i] = N − 1` with every index failing (the fallback the spec omits). -/
theorem C6_transport_map_entry_characterisation {α : Type}
    [LinearOrderedField α] [FloorRing α] (N : ℕ) (magX magY : List α)
    (hX : ∀ x ∈ magX, 0 ≤ x) (hY : ∀ y ∈ magY, 0 ≤ y)
    (i : ℕ) (hi : i < N) :
    0 ≤ (computeTransportMap N magX magY).getD i 0 ∧
    (computeTransportMap N magX magY).getD i 0 ≤ (N : ℤ) - 1 ∧
    (∀ j : ℕ, (j : ℤ) < (computeTransportMap N magX magY).getD i 0 →
      j < N →
      cdfAt magY (max (magSum N magY) tEps) j <
        cdfAt magX (max (magSum N magX) tEps) i - tEps) ∧
    (cdfAt magX (max (magSum N magX) tEps) i - tEps ≤
        cdfAt magY (max (magSum N magY) tEps)
          ((computeTransportMap N magX magY).getD i 0).toNat ∨
      ((computeTransportMap N magX magY).getD i 0 = (N : ℤ) - 1 ∧
        ∀ j : ℕ, j < N →
          cdfAt magY (max (magSum N magY) tEps) j <
            cdfAt magX (max (magSum N magX) tEps) i - tEps)) :=
  computeTransportMap_entry N magX magY hX hY i hi

/-- C6 (witness): the characterisation at `N = 2`, `|X| = [1,0]`,
`|Y| = [0,0]`, `i = 0` (the all-failing fallback case). -/
theorem C6_transport_map_entry_witness :
    let sX := max (magSum 2 [(1:ℚ), 0]) tEps
    let sY := max (magSum 2 [(0:ℚ), 0]) tEps
    let t := (computeTransportMap 2 [(1:ℚ), 0] [0, 0]).getD 0 0
    0 ≤ t ∧ t ≤ (2 : ℤ) - 1 ∧
      (∀ j : ℕ, (j : ℤ) < t → j < 2 →
        cdfAt [(0:ℚ), 0] sY j < cdfAt [(1:ℚ), 0] sX 0 - tEps) ∧
      (cdfAt [(1:ℚ), 0] sX 0 - tEps ≤ cdfAt [(0:ℚ), 0] sY t.toNat ∨
        (t = (2 : ℤ) - 1 ∧
          ∀ j : ℕ, j < 2 →
            cdfAt [(0:ℚ), 0] sY j < cdfAt [(1:ℚ), 0] sX 0 - tEps)) :=
  C6_transport_map_entry_characterisation 2 [(1:ℚ), 0] [0, 0]
    (by
      intro x hx
      simp only [List.mem_cons, List.not_mem_nil, or_false] at hx
      rcases hx with rfl | rfl <;> norm_num)
    (by
      intro y hy
      simp only [List.mem_cons, List.not_mem_nil, or_false] at hy
      rcases hy with rfl | rfl <;> norm_num)
    0 (by norm_num)

/-- C6 (counterexample): with `|X| = [1,0]`, `|Y| = [0,0]` the builder
returns `T = [1,1]`, yet no index passes the CDF test at `i = 0`
(`F_Y[T[0]] < F_X[0] − ε`): `T[0]` is not "the smallest index `j` with
`F_Y[j] ≥ F_X[i] − ε`" — it is the `N − 1` fallback. -/
theorem C6_fallback_counterexample :
    computeTransportMap 2 [(1:ℚ), 0] [0, 0] = [1, 1] ∧
    cdfAt [(0:ℚ), 0] (max (magSum 2 [(0:ℚ), 0]) tEps) 1 <
      cdfAt [(1:ℚ), 0] (max (magSum 2 [(1:ℚ), 0]) tEps) 0 - tEps := by
  refine ⟨ctm_c6, ?_⟩
  norm_num [cdfAt, magSum, tEps, Finset.sum_range_succ, List.getD,
    List.get?]


lemma ctm_c2 : computeTransportMap 3 [(1:ℚ), 0, 0] [0, 0, 1] = [2, 2, 2] := by
  norm_num [computeTransportMap, lowerBoundGo, cdfAt, magSum, tEps,
    List.range_succ, Finset.sum_range_succ, List.getD, List.get?]

/-- C2 (amended): the interpolation factor is used as passed, without any
clamp: on spectra `|X| = [1,0,0]`, `|Y| = [0,0,1]` the interpolator returns
`[0,0,-1]` at `k = -1` (≠ its `k = 0` output `[1,0,0]`, and not even a
nonnegative magnitude spectrum) and `[0,0,5]` at `k = 2`
(≠ its `k = 1` output `[0,0,3]`). -/
theorem C2_k_not_clamped :
    (interpolateSpectrum 3 [(1:ℚ), 0, 0] [0, 0, 0] [0, 0, 1] [0, 0, 0]
      (-1)).1 = [0, 0, -1] ∧
    (interpolateSpectrum 3 [(1:ℚ), 0, 0] [0, 0, 0] [0, 0, 1] [0, 0, 0]
      0).1 = [1, 0, 0] ∧
    (interpolateSpectrum 3 [(1:ℚ), 0, 0] [0, 0, 0] [0, 0, 1] [0, 0, 0]
      1).1 = [0, 0, 3] ∧
    (interpolateSpectrum 3 [(1:ℚ), 0, 0] [0, 0, 0] [0, 0, 1] [0, 0, 0]
      2).1 = [0, 0, 5] := by
  have hcm2 : ⌈(-2 : ℚ)⌉ = -2 := by
    rw [show (-2 : ℚ) = ((-2 : ℤ) : ℚ) by norm_num, Int.ceil_intCast]
  have hc0 : ⌈(0 : ℚ)⌉ = 0 := by norm_num
  have hc1 : ⌈(1 : ℚ)⌉ = 1 := by norm_num
  have hc2 : ⌈(2 : ℚ)⌉ = 2 := by norm_num
  have hc3 : ⌈(3 : ℚ)⌉ = 3 := by norm_num
  have hc4 : ⌈(4 : ℚ)⌉ = 4 := by norm_num
  refine ⟨?_, ?_, ?_, ?_⟩ <;>
    norm_num [interpolateSpectrum, ctm_c2, depositStep, List.range_succ,
      List.getD, List.get?, List.set, tEps, hcm2, hc0, hc1, hc2, hc3, hc4,
      List.replicate_succ, show ((2 : ℤ)).toNat = 2 from rfl,
      List.getElem_cons_zero, List.getElem_cons_succ]


lemma hop_silent_neg (ob φ : List ℝ) (rp : ℕ) :
    reassignHop (stR [0, 0, 0, 1, 0] [0, 0, 0, 0, 0] 1 ob rp φ
      [0, 0, 0, 0, 0]) (-1) =
      stR [0, 0, 0, 1, 0] [0, 0, 0, 0, 0] 1
        (ob.set ((rp + 3) % ob.length) 0) rp φ [0, 0, 0, 0, 0] := by
  set stX := stR [0, 0, 0, 1, 0] [0, 0, 0, 0, 0] 1 ob rp φ [0, 0, 0, 0, 0]
    with hstX
  have hawm : awBuf stX (fun n => hannC n (stX.window_samples : ℝ))
      [0, 0, 0, 1, 0] = [0, 0, 0, 0] := awBuf_s _ _ _ _ _ _ _
  have hzm : ∀ p ∈ analyzeWindow stX [0, 0, 0, 1, 0], p.value = (0 : ℂ) := by
    apply analyzeWindow_value_zero_of_awBuf
    rw [hawm]
    intro x hx
    simpa using hx
  have hmain : ∀ p ∈ analyzeWindow stX [0, 0, 0, 1, 0],
      realVOps.vabs p.value = 0 := by
    intro p hp
    rw [show realVOps.vabs p.value = Complex.abs p.value from rfl, hzm p hp]
    exact map_zero Complex.abs
  have hside : ∀ p ∈ analyzeWindow stX [0, 0, 0, 0, 0],
      realVOps.vabs p.value = 0 := by
    intro p hp
    rw [show realVOps.vabs p.value = Complex.abs p.value from rfl,
      analyzeWindow_value_zero stX (by intro x hx; simpa using hx) p hp]
    exact map_zero Complex.abs
  have hpairs : ((analyzeWindow stX [0, 0, 0, 1, 0]).map fun p =>
      { dfltP realVOps with freq := p.freq }).map
        (fun p => (p.value.re, p.value.im)) =
      [((0:ℝ), (0:ℝ)), (0, 0), (0, 0)] := by
    rw [List.map_map]
    apply List.ext_getElem
    · simp [analyzeWindow_length, show stX.fft_size = 3 from rfl]
    · intro i h1 h2
      have hi3 : i < 3 := by
        simpa [analyzeWindow_length, show stX.fft_size = 3 from rfl] using h1
      simp only [List.getElem_map, Function.comp]
      interval_cases i <;>
        norm_num [dfltP, realVOps, List.getD, List.get?]
  simp only [reassignHop]
  rw [show stX.main_buffer = [0, 0, 0, 1, 0] from rfl,
    show stX.sidechain_buffer = [0, 0, 0, 0, 0] from rfl,
    show stX.phases = φ from rfl,
    show stX.window_size_sec = 1 from rfl,
    interpolate_both_silent realVOps _ _ _ _ _ hmain hside]
  simp only [synthesizeWindow, hpairs]
  rw [hstX]
  norm_num [stR, reassignLatency, c2r_four, List.range_succ, List.getD,
    List.get?, RState.mk.injEq]

lemma hop_b_neg (ob φ : List ℝ) (rp : ℕ) :
    reassignHop (stR [0, 0, 1, 1, 0] [0, 0, 0, 0, 0] 1 ob rp φ
      [0, 0, 0, 0, 0]) (-1) =
      stR [0, 0, 1, 1, 0] [0, 0, 0, 0, 0] 1
        (ob.set ((rp + 3) % ob.length) 0) rp
        (silentPhases realVOps
          (analyzeWindow (stR [0, 0, 1, 1, 0] [0, 0, 0, 0, 0] 1 ob rp φ
            [0, 0, 0, 0, 0]) [0, 0, 1, 1, 0]) φ 1)
        [0, 3/4, 0, 0, 0] := by
  set stX := stR [0, 0, 1, 1, 0] [0, 0, 0, 0, 0] 1 ob rp φ [0, 0, 0, 0, 0]
    with hstX
  have hside : ∀ p ∈ analyzeWindow stX [0, 0, 0, 0, 0],
      realVOps.vabs p.value = 0 := by
    intro p hp
    rw [show realVOps.vabs p.value = Complex.abs p.value from rfl,
      analyzeWindow_value_zero stX (by intro x hx; simpa using hx) p hp]
    exact map_zero Complex.abs
  have hawb : awBuf stX (fun n => hannC n (stX.window_samples : ℝ))
      [0, 0, 1, 1, 0] = [0, 0, 3/4, 0] := awBuf_b _ _ _ _ _ _ _
  have hvals : ∀ i, i < 3 →
      ((analyzeWindow stX [0, 0, 1, 1, 0]).getD i (dfltP realVOps)).value =
        (⟨((r2c [(0:ℝ), 0, 3/4, 0] 3).getD i (0, 0)).1,
          ((r2c [(0:ℝ), 0, 3/4, 0] 3).getD i (0, 0)).2⟩ : ℂ) := by
    intro i hi
    rw [analyzeWindow_value_getD stX _ i hi, hawb,
      show stX.fft_size = 3 from rfl]
  have hL : ¬ (∑ i in Finset.range
      (analyzeWindow stX [0, 0, 1, 1, 0]).length,
      realVOps.vabs (((analyzeWindow stX [0, 0, 1, 1, 0]).getD i
        (dfltP realVOps)).value)) < tEps := by
    rw [analyzeWindow_length]
    show ¬ (∑ i in Finset.range 3, Complex.abs _) < tEps
    rw [Finset.sum_range_succ, Finset.sum_range_succ, Finset.sum_range_succ,
      Finset.sum_range_zero]
    rw [hvals 0 (by omega), hvals 1 (by omega), hvals 2 (by omega)]
    rw [r2c_0034]
    norm_num [cabs_mk_real, tEps]
    rw [abs_of_nonneg (by norm_num : (0:ℝ) ≤ 3/4)]
    norm_num
  have hpairs : ((analyzeWindow stX [0, 0, 1, 1, 0]).map fun p =>
      { p with value := realVOps.vsmul (1 - -1) p.value }).map
        (fun p => (p.value.re, p.value.im)) =
      [((3:ℝ)/2, (0:ℝ)), (-(3/2), 0), (3/2, 0)] := by
    rw [List.map_map]
    apply List.ext_getElem
    · simp [analyzeWindow_length, show stX.fft_size = 3 from rfl]
    · intro i h1 h2
      have hi3 : i < 3 := by
        simpa [analyzeWindow_length, show stX.fft_size = 3 from rfl] using h1
      have hv : ((analyzeWindow stX [0, 0, 1, 1, 0])[i]).value =
          (⟨((r2c [(0:ℝ), 0, 3/4, 0] 3).getD i (0, 0)).1,
            ((r2c [(0:ℝ), 0, 3/4, 0] 3).getD i (0, 0)).2⟩ : ℂ) := by
        rw [← List.getD_eq_getElem _ (dfltP realVOps)
          (by simpa [analyzeWindow_length, show stX.fft_size = 3 from rfl]
            using h1)]
        exact hvals i hi3
      simp only [List.getElem_map, Function.comp]
      rw [hv, r2c_0034]
      interval_cases i <;>
        norm_num [realVOps, List.getD, List.get?, Prod.ext_iff,
          Complex.mul_re, Complex.mul_im, Complex.ofReal_re,
          Complex.ofReal_im]
  simp only [reassignHop]
  rw [show stX.main_buffer = [0, 0, 1, 1, 0] from rfl,
    show stX.sidechain_buffer = [0, 0, 0, 0, 0] from rfl,
    show stX.phases = φ from rfl,
    show stX.window_size_sec = 1 from rfl,
    interpolate_right_silent realVOps _ _ _ _ _ hside hL]
  simp only [synthesizeWindow, hpairs]
  rw [hstX]
  norm_num [stR, reassignLatency, c2r_four, List.range_succ, List.getD, List.get?,
    RState.mk.injEq]

lemma hop_c_neg (ob φ : List ℝ) (rp : ℕ) :
    reassignHop (stR [0, 1, 1, 1, 0] [0, 0, 0, 0, 0] 1 ob rp φ
      [0, 3/4, 0, 0, 0]) (-1) =
      stR [0, 1, 1, 1, 0] [0, 0, 0, 0, 0] 1
        (ob.set ((rp + 3) % ob.length) 0) rp
        (silentPhases realVOps
          (analyzeWindow (stR [0, 1, 1, 1, 0] [0, 0, 0, 0, 0] 1 ob rp φ
            [0, 3/4, 0, 0, 0]) [0, 1, 1, 1, 0]) φ 1)
        [3/2, 3/4, 0, 0, 0] := by
  set stX := stR [0, 1, 1, 1, 0] [0, 0, 0, 0, 0] 1 ob rp φ [0, 3/4, 0, 0, 0]
    with hstX
  have hside : ∀ p ∈ analyzeWindow stX [0, 0, 0, 0, 0],
      realVOps.vabs p.value = 0 := by
    intro p hp
    rw [show realVOps.vabs p.value = Complex.abs p.value from rfl,
      analyzeWindow_value_zero stX (by intro x hx; simpa using hx) p hp]
    exact map_zero Complex.abs
  have hawb : awBuf stX (fun n => hannC n (stX.window_samples : ℝ))
      [0, 1, 1, 1, 0] = [0, 3/4, 3/4, 0] := awBuf_c _ _ _ _ _ _ _
  have hvals : ∀ i, i < 3 →
      ((analyzeWindow stX [0, 1, 1, 1, 0]).getD i (dfltP realVOps)).value =
        (⟨((r2c [(0:ℝ), 3/4, 3/4, 0] 3).getD i (0, 0)).1,
          ((r2c [(0:ℝ), 3/4, 3/4, 0] 3).getD i (0, 0)).2⟩ : ℂ) := by
    intro i hi
    rw [analyzeWindow_value_getD stX _ i hi, hawb,
      show stX.fft_size = 3 from rfl]
  have hL : ¬ (∑ i in Finset.range
      (analyzeWindow stX [0, 1, 1, 1, 0]).length,
      realVOps.vabs (((analyzeWindow stX [0, 1, 1, 1, 0]).getD i
        (dfltP realVOps)).value)) < tEps := by
    rw [analyzeWindow_length]
    show ¬ (∑ i in Finset.range 3, Complex.abs _) < tEps
    rw [Finset.sum_range_succ, Finset.sum_range_succ, Finset.sum_range_succ,
      Finset.sum_range_zero]
    rw [hvals 0 (by omega), hvals 1 (by omega), hvals 2 (by omega)]
    rw [r2c_0340]
    push_neg
    simp only [List.getD, List.get?, Option.getD]
    have h1 : Complex.abs ⟨((3:ℝ)/2), (0:ℝ)⟩ = 3/2 := by
      rw [cabs_mk_real]; norm_num
    have h2 : (0:ℝ) ≤ Complex.abs ⟨-((3:ℝ)/4), -((3:ℝ)/4)⟩ :=
      AbsoluteValue.nonneg _ _
    rw [h1, cabs_00, tEps]
    linarith
  have hpairs : ((analyzeWindow stX [0, 1, 1, 1, 0]).map fun p =>
      { p with value := realVOps.vsmul (1 - -1) p.value }).map
        (fun p => (p.value.re, p.value.im)) =
      [((3:ℝ), (0:ℝ)), (-(3/2), -(3/2)), (0, 0)] := by
    rw [List.map_map]
    apply List.ext_getElem
    · simp [analyzeWindow_length, show stX.fft_size = 3 from rfl]
    · intro i h1 h2
      have hi3 : i < 3 := by
        simpa [analyzeWindow_length, show stX.fft_size = 3 from rfl] using h1
      have hv : ((analyzeWindow stX [0, 1, 1, 1, 0])[i]).value =
          (⟨((r2c [(0:ℝ), 3/4, 3/4, 0] 3).getD i (0, 0)).1,
            ((r2c [(0:ℝ), 3/4, 3/4, 0] 3).getD i (0, 0)).2⟩ : ℂ) := by
        rw [← List.getD_eq_getElem _ (dfltP realVOps)
          (by simpa [analyzeWindow_length, show stX.fft_size = 3 from rfl]
            using h1)]
        exact hvals i hi3
      simp only [List.getElem_map, Function.comp]
      rw [hv, r2c_0340]
      interval_cases i <;>
        norm_num [realVOps, List.getD, List.get?, Prod.ext_iff,
          Complex.mul_re, Complex.mul_im, Complex.ofReal_re,
          Complex.ofReal_im]
  simp only [reassignHop]
  rw [show stX.main_buffer = [0, 1, 1, 1, 0] from rfl,
    show stX.sidechain_buffer = [0, 0, 0, 0, 0] from rfl,
    show stX.phases = φ from rfl,
    show stX.window_size_sec = 1 from rfl,
    interpolate_right_silent realVOps _ _ _ _ _ hside hL]
  simp only [synthesizeWindow, hpairs]
  rw [hstX]
  norm_num [stR, reassignLatency, c2r_four, List.range_succ, List.getD,
    List.get?, RState.mk.injEq]

lemma hop_d_neg (ob φ : List ℝ) (rp : ℕ) :
    reassignHop (stR [1, 1, 1, 1, 0] [0, 0, 0, 0, 0] 1 ob rp φ
      [3/2, 3/4, 0, 0, 0]) (-1) =
      stR [1, 1, 1, 1, 0] [0, 0, 0, 0, 0] 1
        (ob.set ((rp + 3) % ob.length) (3/2)) rp
        (silentPhases realVOps
          (analyzeWindow (stR [1, 1, 1, 1, 0] [0, 0, 0, 0, 0] 1 ob rp φ
            [3/2, 3/4, 0, 0, 0]) [1, 1, 1, 1, 0]) φ 1)
        [3/2, 3/4, 0, 0, 0] := by
  set stX := stR [1, 1, 1, 1, 0] [0, 0, 0, 0, 0] 1 ob rp φ [3/2, 3/4, 0, 0, 0]
    with hstX
  have hside : ∀ p ∈ analyzeWindow stX [0, 0, 0, 0, 0],
      realVOps.vabs p.value = 0 := by
    intro p hp
    rw [show realVOps.vabs p.value = Complex.abs p.value from rfl,
      analyzeWindow_value_zero stX (by intro x hx; simpa using hx) p hp]
    exact map_zero Complex.abs
  have hawb : awBuf stX (fun n => hannC n (stX.window_samples : ℝ))
      [1, 1, 1, 1, 0] = [0, 3/4, 3/4, 0] := awBuf_d _ _ _ _ _ _ _
  have hvals : ∀ i, i < 3 →
      ((analyzeWindow stX [1, 1, 1, 1, 0]).getD i (dfltP realVOps)).value =
        (⟨((r2c [(0:ℝ), 3/4, 3/4, 0] 3).getD i (0, 0)).1,
          ((r2c [(0:ℝ), 3/4, 3/4, 0] 3).getD i (0, 0)).2⟩ : ℂ) := by
    intro i hi
    rw [analyzeWindow_value_getD stX _ i hi, hawb,
      show stX.fft_size = 3 from rfl]
  have hL : ¬ (∑ i in Finset.range
      (analyzeWindow stX [1, 1, 1, 1, 0]).length,
      realVOps.vabs (((analyzeWindow stX [1, 1, 1, 1, 0]).getD i
        (dfltP realVOps)).value)) < tEps := by
    rw [analyzeWindow_length]
    show ¬ (∑ i in Finset.range 3, Complex.abs _) < tEps
    rw [Finset.sum_range_succ, Finset.sum_range_succ, Finset.sum_range_succ,
      Finset.sum_range_zero]
    rw [hvals 0 (by omega), hvals 1 (by omega), hvals 2 (by omega)]
    rw [r2c_0340]
    push_neg
    simp only [List.getD, List.get?, Option.getD]
    have h1 : Complex.abs ⟨((3:ℝ)/2), (0:ℝ)⟩ = 3/2 := by
      rw [cabs_mk_real]; norm_num
    have h2 : (0:ℝ) ≤ Complex.abs ⟨-((3:ℝ)/4), -((3:ℝ)/4)⟩ :=
      AbsoluteValue.nonneg _ _
    rw [h1, cabs_00, tEps]
    linarith
  have hpairs : ((analyzeWindow stX [1, 1, 1, 1, 0]).map fun p =>
      { p with value := realVOps.vsmul (1 - -1) p.value }).map
        (fun p => (p.value.re, p.value.im)) =
      [((3:ℝ), (0:ℝ)), (-(3/2), -(3/2)), (0, 0)] := by
    rw [List.map_map]
    apply List.ext_getElem
    · simp [analyzeWindow_length, show stX.fft_size = 3 from rfl]
    · intro i h1 h2
      have hi3 : i < 3 := by
        simpa [analyzeWindow_length, show stX.fft_size = 3 from rfl] using h1
      have hv : ((analyzeWindow stX [1, 1, 1, 1, 0])[i]).value =
          (⟨((r2c [(0:ℝ), 3/4, 3/4, 0] 3).getD i (0, 0)).1,
            ((r2c [(0:ℝ), 3/4, 3/4, 0] 3).getD i (0, 0)).2⟩ : ℂ) := by
        rw [← List.getD_eq_getElem _ (dfltP realVOps)
          (by simpa [analyzeWindow_length, show stX.fft_size = 3 from rfl]
            using h1)]
        exact hvals i hi3
      simp only [List.getElem_map, Function.comp]
      rw [hv, r2c_0340]
      interval_cases i <;>
        norm_num [realVOps, List.getD, List.get?, Prod.ext_iff,
          Complex.mul_re, Complex.mul_im, Complex.ofReal_re,
          Complex.ofReal_im]
  simp only [reassignHop]
  rw [show stX.main_buffer = [1, 1, 1, 1, 0] from rfl,
    show stX.sidechain_buffer = [0, 0, 0, 0, 0] from rfl,
    show stX.phases = φ from rfl,
    show stX.window_size_sec = 1 from rfl,
    interpolate_right_silent realVOps _ _ _ _ _ hside hL]
  simp only [synthesizeWindow, hpairs]
  rw [hstX]
  norm_num [stR, reassignLatency, c2r_four, List.range_succ, List.getD,
    List.get?, RState.mk.injEq]


lemma feed_s_neg (ob φ : List ℝ) (rp : ℕ) :
    reassignFeed (-1) (stR [0, 0, 0, 0, 0] [0, 0, 0, 0, 0] 0 ob rp φ
      [0, 0, 0, 0, 0]) (1, 0) =
      stR [0, 0, 1, 0, 0] [0, 0, 0, 0, 0] 0
        (ob.set ((rp + 3) % ob.length) 0) rp φ [0, 0, 0, 0, 0] := by
  have h1 : reassignFeed (-1) (stR [0, 0, 0, 0, 0] [0, 0, 0, 0, 0] 0 ob rp φ
      [0, 0, 0, 0, 0]) (1, 0) =
      { reassignHop (stR [0, 0, 0, 1, 0] [0, 0, 0, 0, 0] 1 ob rp φ
          [0, 0, 0, 0, 0]) (-1) with
        main_buffer := (reassignHop (stR [0, 0, 0, 1, 0] [0, 0, 0, 0, 0] 1
          ob rp φ [0, 0, 0, 0, 0]) (-1)).main_buffer.drop 1 ++ [0],
        sidechain_buffer := (reassignHop (stR [0, 0, 0, 1, 0] [0, 0, 0, 0, 0]
          1 ob rp φ [0, 0, 0, 0, 0]) (-1)).sidechain_buffer.drop 1 ++ [0],
        input_write_pos := 0 } := by
    simp only [reassignFeed, stR, reassignHop_hop_size]
    norm_num [List.set]
  rw [h1, hop_silent_neg]
  norm_num [stR, RState.mk.injEq]

lemma feed_b_neg (ob φ : List ℝ) (rp : ℕ) :
    reassignFeed (-1) (stR [0, 0, 1, 0, 0] [0, 0, 0, 0, 0] 0 ob rp φ
      [0, 0, 0, 0, 0]) (1, 0) =
      stR [0, 1, 1, 0, 0] [0, 0, 0, 0, 0] 0
        (ob.set ((rp + 3) % ob.length) 0) rp
        (silentPhases realVOps
          (analyzeWindow (stR [0, 0, 1, 1, 0] [0, 0, 0, 0, 0] 1 ob rp φ
            [0, 0, 0, 0, 0]) [0, 0, 1, 1, 0]) φ 1)
        [0, 3/4, 0, 0, 0] := by
  have h1 : reassignFeed (-1) (stR [0, 0, 1, 0, 0] [0, 0, 0, 0, 0] 0 ob rp φ
      [0, 0, 0, 0, 0]) (1, 0) =
      { reassignHop (stR [0, 0, 1, 1, 0] [0, 0, 0, 0, 0] 1 ob rp φ
          [0, 0, 0, 0, 0]) (-1) with
        main_buffer := (reassignHop (stR [0, 0, 1, 1, 0] [0, 0, 0, 0, 0] 1
          ob rp φ [0, 0, 0, 0, 0]) (-1)).main_buffer.drop 1 ++ [0],
        sidechain_buffer := (reassignHop (stR [0, 0, 1, 1, 0] [0, 0, 0, 0, 0]
          1 ob rp φ [0, 0, 0, 0, 0]) (-1)).sidechain_buffer.drop 1 ++ [0],
        input_write_pos := 0 } := by
    simp only [reassignFeed, stR, reassignHop_hop_size]
    norm_num [List.set]
  rw [h1, hop_b_neg]
  norm_num [stR, RState.mk.injEq]

lemma feed_c_neg (ob φ : List ℝ) (rp : ℕ) :
    reassignFeed (-1) (stR [0, 1, 1, 0, 0] [0, 0, 0, 0, 0] 0 ob rp φ
      [0, 3/4, 0, 0, 0]) (1, 0) =
      stR [1, 1, 1, 0, 0] [0, 0, 0, 0, 0] 0
        (ob.set ((rp + 3) % ob.length) 0) rp
        (silentPhases realVOps
          (analyzeWindow (stR [0, 1, 1, 1, 0] [0, 0, 0, 0, 0] 1 ob rp φ
            [0, 3/4, 0, 0, 0]) [0, 1, 1, 1, 0]) φ 1)
        [3/2, 3/4, 0, 0, 0] := by
  have h1 : reassignFeed (-1) (stR [0, 1, 1, 0, 0] [0, 0, 0, 0, 0] 0 ob rp φ
      [0, 3/4, 0, 0, 0]) (1, 0) =
      { reassignHop (stR [0, 1, 1, 1, 0] [0, 0, 0, 0, 0] 1 ob rp φ
          [0, 3/4, 0, 0, 0]) (-1) with
        main_buffer := (reassignHop (stR [0, 1, 1, 1, 0] [0, 0, 0, 0, 0] 1
          ob rp φ [0, 3/4, 0, 0, 0]) (-1)).main_buffer.drop 1 ++ [0],
        sidechain_buffer := (reassignHop (stR [0, 1, 1, 1, 0] [0, 0, 0, 0, 0]
          1 ob rp φ [0, 3/4, 0, 0, 0]) (-1)).sidechain_buffer.drop 1 ++ [0],
        input_write_pos := 0 } := by
    simp only [reassignFeed, stR, reassignHop_hop_size]
    norm_num [List.set]
  rw [h1, hop_c_neg]
  norm_num [stR, RState.mk.injEq]

lemma feed_d_neg (ob φ : List ℝ) (rp : ℕ) :
    reassignFeed (-1) (stR [1, 1, 1, 0, 0] [0, 0, 0, 0, 0] 0 ob rp φ
      [3/2, 3/4, 0, 0, 0]) (1, 0) =
      stR [1, 1, 1, 0, 0] [0, 0, 0, 0, 0] 0
        (ob.set ((rp + 3) % ob.length) (3/2)) rp
        (silentPhases realVOps
          (analyzeWindow (stR [1, 1, 1, 1, 0] [0, 0, 0, 0, 0] 1 ob rp φ
            [3/2, 3/4, 0, 0, 0]) [1, 1, 1, 1, 0]) φ 1)
        [3/2, 3/4, 0, 0, 0] := by
  have h1 : reassignFeed (-1) (stR [1, 1, 1, 0, 0] [0, 0, 0, 0, 0] 0 ob rp φ
      [3/2, 3/4, 0, 0, 0]) (1, 0) =
      { reassignHop (stR [1, 1, 1, 1, 0] [0, 0, 0, 0, 0] 1 ob rp φ
          [3/2, 3/4, 0, 0, 0]) (-1) with
        main_buffer := (reassignHop (stR [1, 1, 1, 1, 0] [0, 0, 0, 0, 0] 1
          ob rp φ [3/2, 3/4, 0, 0, 0]) (-1)).main_buffer.drop 1 ++ [0],
        sidechain_buffer := (reassignHop (stR [1, 1, 1, 1, 0] [0, 0, 0, 0, 0]
          1 ob rp φ [3/2, 3/4, 0, 0, 0]) (-1)).sidechain_buffer.drop 1 ++ [0],
        input_write_pos := 0 } := by
    simp only [reassignFeed, stR, reassignHop_hop_size]
    norm_num [List.set]
  rw [h1, hop_d_neg]
  norm_num [stR, RState.mk.injEq]

lemma runA_neg : (reassignProcess (mkReassign 4 1000 2 0) (-1) [1, 1, 1, 1]
    [0, 0, 0, 0]).2 = [0, 0, 0, 3/2] := by
  rw [mkReassign_concrete]
  simp only [reassignProcess]
  rw [show ([1, 1, 1, 1] : List ℝ).zip ([0, 0, 0, 0] : List ℝ) =
    [(1, 0), (1, 0), (1, 0), (1, 0)] from rfl]
  rw [List.foldl_cons, feed_s_neg, List.foldl_cons, feed_b_neg, List.foldl_cons,
    feed_c_neg, List.foldl_cons, feed_d_neg, List.foldl_nil]
  norm_num [List.set]
  simp only [List.range_succ, List.range_zero, List.foldl_append,
    List.foldl_cons, List.foldl_nil, reassignEmit, stR]
  norm_num [List.getD, List.get?, List.set]

/-- C2 (counterexample): the reassignment engine's `process()` output at
`k = -1` differs from its output at `k = 0` on the same input, so `k` is
not clamped to `[0,1]` before use. -/
theorem C2_no_clamp_counterexample :
    ¬ ((reassignProcess (mkReassign 4 1000 2 0) (-1) [1, 1, 1, 1]
        [0, 0, 0, 0]).2 =
      (reassignProcess (mkReassign 4 1000 2 0) 0 [1, 1, 1, 1]
        [0, 0, 0, 0]).2) := by
  rw [runA, runA_neg]
  norm_num


/-- C9 (counterexample): the reassignment engine is not block-size
independent: from reset, one `process()` call on `[1,1,1,1]` (sidechain
zero, `k = 0`) and the split calls `[1]` then `[1,1,1]` disagree even
after the first `latency` output samples are discarded (`[3/4]` versus
`[0]`): `processHop` writes hop output at `output_read_pos_ + latency`,
and the read cursor position at hop time depends on the call split. -/
theorem C9_reassign_split_counterexample :
    ¬ ((reassignProcess (mkReassign 4 1000 2 0) 0 [1, 1, 1, 1]
        [0, 0, 0, 0]).2.drop (reassignLatency (mkReassign 4 1000 2 0)) =
      ((reassignProcess (mkReassign 4 1000 2 0) 0 [1] [0]).2 ++
        (reassignProcess (reassignProcess (mkReassign 4 1000 2 0) 0 [1]
          [0]).1 0 [1, 1, 1] [0, 0, 0]).2).drop
        (reassignLatency (mkReassign 4 1000 2 0))) := by
  have hL : reassignLatency (mkReassign 4 1000 2 0) = 3 := by
    rw [mkReassign_concrete]; rfl
  rw [hL, runA, runB1]
  norm_num
  rw [runB2]
  norm_num

end AudioTransport
